import Mathlib

/-!
Shallow embedding of `pegomock/mockgen/mockgen.go` (package `mockgen`), the
code-generation engine that emits Go mock implementations from an interface
model.  Pure Go functions are translated into Lean functions; the line-based
output buffer of the `generator` struct is modelled as an explicit state
(`GenSt`) holding the emitted lines and the current indentation.  Go strings
are Lean `String`s (both are sequences of unicode scalar values); machine
integers that occur (slice indices, the suffix counter) stay within `Nat`.

Character classes: `unicode.IsLetter` / `unicode.IsDigit` are embedded by
their ASCII fragments (`Char.isAlpha` / `Char.isDigit`); every concrete input
appearing in the development is ASCII, where the fragments agree exactly with
the Go predicates.
-/

namespace Mockgen

/-- Embedding of Go `unicode.IsLetter`, restricted to ASCII where it equals
`Char.isAlpha`. -/
def goIsLetter (c : Char) : Bool := c.isAlpha

/-- Embedding of Go `unicode.IsDigit`, restricted to ASCII where it equals
`Char.isDigit`. -/
def goIsDigit (c : Char) : Bool := c.isDigit

/-- One iteration of the `for _, r := range s` loop body of `sanitize`
(mockgen.go:146-159): a character is kept if it is legal at the current
position (first position: letter or underscore; later: letter, digit or
underscore), otherwise `_` is appended. -/
def sanitizeStep (t : String) (r : Char) : String :=
  if t = "" then
    if goIsLetter r || r = '_' then t.push r
    else t.push '_'
  else
    if goIsLetter r || goIsDigit r || r = '_' then t.push r
    else t.push '_'

/-- Embedding of `sanitize` (mockgen.go:144-164): clean a string into a
suitable package name; if the whole result collapses to a single underscore,
substitute `"x"`. -/
def sanitize (s : String) : String :=
  let t := s.data.foldl sanitizeStep ""
  if t = "_" then "x" else t

/-- Embedding of Go `path.Base`: empty path gives `"."`, trailing slashes are
stripped, the last slash-separated component is returned, an all-slash path
gives `"/"`. -/
def pathBase (p : String) : String :=
  if p = "" then "." else
  let stripped := p.data.reverse.dropWhile (fun c => c == '/')
  if stripped.isEmpty then "/" else
  String.mk (stripped.takeWhile (fun c => c != '/')).reverse

/-- Decimal digits of `n`, most significant first, produced with explicit
fuel so that the definition is structurally recursive (fuel `n+1` always
suffices, see `decVal_natToDecAux`). -/
def natToDecAux : Nat → Nat → List Char
  | 0, _ => []
  | fuel+1, n =>
    if n < 10 then [Nat.digitChar n]
    else natToDecAux fuel (n / 10) ++ [Nat.digitChar (n % 10)]

/-- Embedding of Go `strconv.Itoa` on natural numbers (the suffix counter in
`Generate` starts at 0 and only increments): standard decimal rendering. -/
def natToDec (n : Nat) : String := String.mk (natToDecAux (n + 1) n)

/-- The Go reserved words: exactly the identifiers for which
`token.Lookup(s).IsKeyword()` (go/token) returns true. -/
def goKeywords : List String :=
  ["break", "case", "chan", "const", "continue", "default", "defer", "else",
   "fallthrough", "for", "func", "go", "goto", "if", "import", "interface",
   "map", "package", "range", "return", "select", "struct", "switch", "type",
   "var"]

/-- Embedding of `token.Lookup(s).IsKeyword()`. -/
def isKeyword (s : String) : Bool := goKeywords.contains s

/-- The loop guard of the alias-allocation loop (mockgen.go:194), negated: a
candidate local name is usable when it is neither already allocated nor a Go
keyword. -/
def isFree (localNames : List String) (s : String) : Bool :=
  !(localNames.contains s) && !(isKeyword s)

/-- The `for localNames[pkgName] || token.Lookup(pkgName).IsKeyword()` loop of
`Generate` (mockgen.go:192-197), trying `base ++ Itoa i`, `base ++ Itoa (i+1)`,
… .  The Go loop is unbounded; here it carries fuel, and
`allocFrom_isFree` below shows the fuel used by `allocAlias` always
suffices to reach a free candidate. -/
def allocFrom (localNames : List String) (base : String) : Nat → Nat → String
  | 0, i => base ++ natToDec i
  | fuel+1, i =>
    let cand := base ++ natToDec i
    if isFree localNames cand then cand else allocFrom localNames base fuel (i + 1)

/-- Alias allocation for one import path's sanitized basename
(mockgen.go:192-197): try `base` itself, then `base0`, `base1`, … until the
candidate is neither allocated nor a keyword. -/
def allocAlias (localNames : List String) (base : String) : String :=
  if isFree localNames base then base
  else allocFrom localNames base (localNames.length + 26) 0

/-- The alias-resolution loop of `Generate` (mockgen.go:184-201), iterating
the import paths in the given order (the order in which Go happens to range
over the unordered `im` map): builds `packageMap` (path ↦ alias, as an
association list in allocation order) and the set `localNames` of allocated
aliases. -/
def resolveAliases (paths : List String) : List (String × String) × List String :=
  paths.foldl
    (fun st pth =>
      let a := allocAlias st.2 (sanitize (pathBase pth))
      (st.1 ++ [(pth, a)], a :: st.2))
    ([], [])

/-- Verification helper (not from the source): evaluate a list of decimal
digit characters back to the number it denotes; used to prove `natToDec`
injective. -/
def decVal (cs : List Char) : Nat := cs.foldl (fun a c => a * 10 + (c.toNat - 48)) 0

/-- Go fmt `%v` rendering of a bool. -/
def goBool (b : Bool) : String := if b then "true" else "false"

/-- Go fmt `%q` rendering of an import path.  (`%q` escapes special
characters; no import path in this development contains any.) -/
def goQuote (s : String) : String := "\"" ++ s ++ "\""

/-- A run of `k` tab characters; used to state facts about emitted
indentation. -/
def tabs (k : Nat) : String := String.mk (List.replicate k '\t')

/-- The `importPath` constant (mockgen.go:42): the invocation-recording
runtime library. -/
def importPath : String := "github.com/petergtz/pegomock"

/-- `model.Parameter` (package `mockgen/model`, an external input per the
spec's §2/§3): a possibly empty name, and the parameter's type already
rendered to source text.  In the Go code that rendering is
`p.Type.String(g.packageMap, pkgOverride)`, a method of the external model
package; it enters the embedding as the field `typeStr`. -/
structure Param where
  name : String
  typeStr : String
deriving DecidableEq, Repr

/-- `model.Method`: name, ordered inputs, at most one trailing variadic
parameter, ordered outputs. -/
structure Method where
  name : String
  inParams : List Param
  variadic : Option Param
  out : List Param
deriving DecidableEq, Repr

/-- `model.Interface`: name and ordered methods. -/
structure Interface where
  name : String
  methods : List Method
deriving DecidableEq, Repr

/-- `model.Package` as consumed by `Generate`: verbatim dot imports and the
ordered interfaces.  The required import set enters separately, as the order
in which Go happens to iterate the unordered `im` map. -/
structure Pkg where
  dotImports : List String
  interfaces : List Interface
deriving DecidableEq, Repr

/-- The `generator` struct (mockgen.go:110-115): output buffer (kept as the
list of emitted lines — `p` always writes exactly one `\n`-terminated line)
and the current indentation.  (`packageMap` is not carried here: the only
use of it outside `Generate` is inside the external `Type.String`, whose
result enters as `Param.typeStr`.) -/
structure GenSt where
  buf : List String
  indent : String
deriving DecidableEq, Repr

/-- `generator.p` (mockgen.go:117-120): append one line, prefixed by the
current indentation. -/
def gp (line : String) (g : GenSt) : GenSt := ⟨g.buf ++ [g.indent ++ line], g.indent⟩

/-- `generator.in` (mockgen.go:122-125): push one tab of indentation. -/
def gin (g : GenSt) : GenSt := ⟨g.buf, g.indent ++ "\t"⟩

/-- `generator.out` (mockgen.go:127-132): drop one tab of indentation, if
any. -/
def gout (g : GenSt) : GenSt :=
  ⟨g.buf, if g.indent.length > 0 then String.mk (g.indent.data.take (g.indent.data.length - 1))
    else g.indent⟩

/-- Parameter naming in `getStuff` (mockgen.go:430-433, 439-442): an empty
model name is replaced by `_param<position>`. -/
def paramName (i : Nat) (p : Param) : String :=
  if p.name = "" then "_param" ++ natToDec i else p.name

/-- The `for i, p := range method.In` loop of `getStuff` (mockgen.go:429-437),
carrying the position: produces `(args[i], argNames[i])` pairs. -/
def buildArgs : Nat → List Param → List (String × String)
  | _, [] => []
  | i, p :: rest => (paramName i p ++ " " ++ p.typeStr, paramName i p) :: buildArgs (i + 1) rest

/-- The (named) results of `getStuff` (mockgen.go:419-426). -/
structure Stuff where
  args : List String
  argNames : List String
  argString : String
  rets : List String
  retString : String
  argNamesString : String
deriving DecidableEq, Repr

/-- Embedding of `getStuff` (mockgen.go:419-475). -/
def getStuff (m : Method) : Stuff :=
  let pairs := buildArgs 0 m.inParams
  let args0 := pairs.map Prod.fst
  let argNames0 := pairs.map Prod.snd
  let args :=
    match m.variadic with
    | some v => args0 ++ [paramName m.inParams.length v ++ " ..." ++ v.typeStr]
    | none => args0
  let argNames :=
    match m.variadic with
    | some v => argNames0 ++ [paramName m.inParams.length v]
    | none => argNames0
  let argString := String.intercalate ", " args
  let rets := m.out.map (fun p => p.typeStr)
  let retString0 := String.intercalate ", " rets
  let retString1 := if rets.length > 1 then "(" ++ retString0 ++ ")" else retString0
  let retString := if retString1 ≠ "" then " " ++ retString1 else retString1
  ⟨args, argNames, argString, rets, retString, String.intercalate ", " argNames⟩

/-- Embedding of `generator.GenerateMockMethod` (mockgen.go:273-318).  Note
the source's indentation bookkeeping: each narrowing `if` does `g.in()` with
no matching `g.out()` inside the loop, so a method with `M ≥ 1` outputs
leaves the generator `M` tabs deeper than it found it. -/
def generateMockMethod (mockType : String) (m : Method) (g : GenSt) : GenSt :=
  let st := getStuff m
  let g := gp ("func (mock *" ++ mockType ++ ") " ++ m.name ++ "(" ++ st.argString ++ ")"
      ++ st.retString ++ " \x7b") g
  let g := gin g
  let r := if m.out.length > 0 then "result :=" else ""
  let reflectReturnTypes := st.rets.map (fun t => "reflect.TypeOf((*" ++ t ++ ")(nil)).Elem()")
  let g := gp ("params := []pegomock.Param\x7b" ++ st.argNamesString ++ "\x7d") g
  let g := gp (r ++ " pegomock.GetGenericMockFrom(mock).Invoke(\"" ++ m.name ++ "\", params, "
      ++ goBool m.variadic.isSome ++ ", []reflect.Type\x7b"
      ++ String.intercalate ", " reflectReturnTypes ++ "\x7d)") g
  let g :=
    if m.out.length > 0 then
      let g := st.rets.enum.foldl (fun g it => gp ("var ret" ++ natToDec it.1 ++ " " ++ it.2) g) g
      let g := gp "if len(result) != 0 \x7b" g
      let g := gin g
      let g := st.rets.enum.foldl
        (fun g it =>
          let g := gp ("if result[" ++ natToDec it.1 ++ "] != nil \x7b") g
          let g := gin g
          let g := gp ("ret" ++ natToDec it.1 ++ "  = result[" ++ natToDec it.1 ++ "].(" ++ it.2 ++ ")") g
          gp "\x7d" g) g
      let g := gout g
      let g := gp "\x7d" g
      gp ("return " ++ String.intercalate ", "
        ((List.range m.out.length).map (fun i => "ret" ++ natToDec i))) g
    else g
  let g := gout g
  gp "\x7d" g

/-- The lines `GenerateMockMethod` appends when called at top level (the
generator's indentation there is empty, `GenerateMockInterface` being
emitted at column zero). -/
def mockMethodLines (mockType : String) (m : Method) : List String :=
  (generateMockMethod mockType m ⟨[], ""⟩).buf

/-- Embedding of `splitArg` (mockgen.go:390-393).  The Go code indexes the
split unconditionally; missing pieces are totalized to `""`. -/
def splitArg (arg : String) : String × String :=
  let array := arg.splitOn " "
  (array.getD 0 "", array.getD 1 "")

/-- Embedding of `argTypesFrom` (mockgen.go:395-402). -/
def argTypesFrom (args : List String) : List String := args.map (fun a => (splitArg a).2)

/-- Embedding of Go `strings.Replace(s, old, new, 1)` (first occurrence only)
for nonempty `old`, realized with fuel `|s|`, which suffices since each step
consumes at least one character of `s`. -/
def replaceFirstCore (pat rep : List Char) : Nat → List Char → List Char
  | 0, s => s
  | _+1, [] => []
  | fuel+1, c :: rest =>
    if pat.isPrefixOf (c :: rest) then rep ++ List.drop pat.length (c :: rest)
    else c :: replaceFirstCore pat rep fuel rest

/-- Embedding of Go `strings.Replace(s, old, new, -1)` (all occurrences) for
nonempty `old`. -/
def replaceAllCore (pat rep : List Char) : Nat → List Char → List Char
  | 0, s => s
  | _+1, [] => []
  | fuel+1, c :: rest =>
    if pat.isPrefixOf (c :: rest) then
      rep ++ replaceAllCore pat rep fuel (List.drop (pat.length - 1) rest)
    else c :: replaceAllCore pat rep fuel rest

/-- `strings.Replace(s, pat, rep, 1)`. -/
def goReplaceFirst (s pat rep : String) : String :=
  String.mk (replaceFirstCore pat.data rep.data s.data.length s.data)

/-- `strings.Replace(s, pat, rep, -1)`. -/
def goReplaceAll (s pat rep : String) : String :=
  String.mk (replaceAllCore pat.data rep.data s.data.length s.data)

/-- Embedding of `calcParams` (mockgen.go:404-417). -/
def calcParams (argString : String) (args : List String) (methodName : String) (g : GenSt) : GenSt :=
  if argString ≠ "" then
    let g := gp ("params := pegomock.GetGenericMockFrom(c.mock).GetInvocationParams(\""
        ++ methodName ++ "\")") g
    let g := gp "if len(params) > 0 \x7b" g
    let g := args.enum.foldl
      (fun g ia =>
        let paramType := goReplaceAll ((ia.2.splitOn " ").getD 1 "") "..." "[]"
        let g := gp ("_param" ++ natToDec ia.1 ++ " = make([]" ++ paramType ++ ", len(params["
            ++ natToDec ia.1 ++ "]))") g
        let g := gp ("for u, param := range params[" ++ natToDec ia.1 ++ "] \x7b") g
        let g := gp ("_param" ++ natToDec ia.1 ++ "[u]=param.(" ++ paramType ++ ")") g
        gp "\x7d" g) g
    gp "\x7d" g
  else g

/-- Embedding of `generator.GenerateVerifierMethod` (mockgen.go:328-388). -/
def generateVerifierMethod (interfaceName : String) (m : Method) (g : GenSt) : GenSt :=
  let st := getStuff m
  let argTypes0 := argTypesFrom st.args
  let argTypes :=
    match m.variadic with
    | some _ => argTypes0.set (argTypes0.length - 1) (goReplaceFirst (argTypes0.getLastD "") "..." "[]")
    | none => argTypes0
  let returnTypeString := interfaceName ++ "_" ++ m.name ++ "_OngoingVerification"
  let argsAsArray := st.args.enum.map
    (fun ia => "_param" ++ natToDec ia.1 ++ " []" ++ goReplaceFirst (splitArg ia.2).2 "..." "[]")
  let g := gp ("type " ++ returnTypeString ++ " struct \x7b") g
  let g := gp ("mock *Mock" ++ interfaceName) g
  let g := gp "\x7d" g
  let g := gp ("func (c *" ++ returnTypeString ++ ") getCapturedArguments() ("
      ++ String.intercalate ", " argTypes ++ ") \x7b") g
  let g :=
    if st.args.length > 0 then
      let g := gp (String.intercalate ", " st.argNames ++ " := c.getAllCapturedArguments()") g
      let prefixedArgNames := st.argNames.map (fun an => an ++ "[len(" ++ an ++ ")-1]")
      gp ("return " ++ String.intercalate ", " prefixedArgNames) g
    else g
  let g := gp "\x7d" g
  let g := gp ("func (c *" ++ returnTypeString ++ ") getAllCapturedArguments() ("
      ++ String.intercalate ", " argsAsArray ++ ") \x7b") g
  let g :=
    if st.args.length > 0 then
      let g := calcParams st.argString st.args m.name g
      gp "return" g
    else g
  let g := gp "\x7d" g
  let g := gp ("func (verifier *Verifier" ++ interfaceName ++ ") " ++ m.name ++ "("
      ++ st.argString ++ ") *" ++ returnTypeString ++ " \x7b") g
  let g := gp ("params := []pegomock.Param\x7b" ++ st.argNamesString ++ "\x7d") g
  let g := gp ("pegomock.GetGenericMockFrom(verifier.mock).Verify(verifier.inOrderContext, verifier.invocationCountMatcher, \""
      ++ m.name ++ "\", params, " ++ goBool m.variadic.isSome ++ ")") g
  let g := gp ("return &" ++ returnTypeString ++ "\x7bverifier.mock\x7d") g
  gp "\x7d" g

/-- Embedding of `generator.GenerateMockInterface` (mockgen.go:228-269).
(`selfPackage` is passed through in Go only as the `pkgOverride` of the
external `Type.String` rendering, already folded into `Param.typeStr`.) -/
def generateMockInterface (iface : Interface) (g : GenSt) : GenSt :=
  let mockTypeName := "Mock" ++ iface.name
  let g := gp "" g
  let g := gp ("// Mock of " ++ iface.name ++ " interface") g
  let g := gp ("type " ++ mockTypeName ++ " struct \x7b") g
  let g := gout (gp "fail func(message string, callerSkip ...int)" (gin g))
  let g := gp "\x7d" g
  let g := gp "" g
  let g := gp ("func New" ++ mockTypeName ++ "() *" ++ mockTypeName ++ " \x7b") g
  let g := gout (gp ("return &" ++ mockTypeName ++ "\x7bfail: pegomock.GlobalFailHandler\x7d") (gin g))
  let g := gp "\x7d" g
  let g := gp "" g
  let g := iface.methods.foldl (fun g m => gp "" (generateMockMethod mockTypeName m g)) g
  let g := gp ("type Verifier" ++ iface.name ++ " struct \x7b") g
  let g := gout (gp "inOrderContext *pegomock.InOrderContext"
      (gp "invocationCountMatcher pegomock.Matcher" (gp ("mock *Mock" ++ iface.name) (gin g))))
  let g := gp "\x7d" g
  let g := gp "" g
  let g := gp ("func (mock *Mock" ++ iface.name ++ ") VerifyWasCalledOnce() *Verifier"
      ++ iface.name ++ " \x7b") g
  let g := gout (gp ("return &Verifier" ++ iface.name ++ "\x7bmock, pegomock.Times(1), nil\x7d") (gin g))
  let g := gp "\x7d" g
  let g := gp "" g
  let g := gp ("func (mock *Mock" ++ iface.name
      ++ ") VerifyWasCalled(invocationCountMatcher pegomock.Matcher) *Verifier" ++ iface.name ++ " \x7b") g
  let g := gout (gp ("return &Verifier" ++ iface.name ++ "\x7bmock, invocationCountMatcher, nil\x7d") (gin g))
  let g := gp "\x7d" g
  let g := gp "" g
  let g := gp ("func (mock *Mock" ++ iface.name
      ++ ") VerifyWasCalledInOrder(invocationCountMatcher pegomock.Matcher, inOrderContext *pegomock.InOrderContext) *Verifier"
      ++ iface.name ++ " \x7b") g
  let g := gout (gp ("return &Verifier" ++ iface.name ++ "\x7bmock, invocationCountMatcher, inOrderContext\x7d") (gin g))
  let g := gp "\x7d" g
  let g := gp "" g
  iface.methods.foldl (fun g m => gp "" (generateVerifierMethod iface.name m g)) g

/-- The aliased import lines of the import block: one per `packageMap` entry
in the given iteration order, the self package skipped
(mockgen.go:209-214). -/
def aliasedImportLines (entries : List (String × String)) (selfPackage : String) : List String :=
  entries.filterMap
    (fun e => if e.1 = selfPackage then none else some ("\t" ++ (e.2 ++ " " ++ goQuote e.1)))

/-- Embedding of `generator.Generate` (mockgen.go:174-226).  Go ranges twice
over unordered maps: once over `im` to allocate aliases (that order is the
`aliasOrder` consumed by `resolveAliases`, kept outside this definition) and
once over `g.packageMap` to render the import block; `renderEntries` is the
entry order of the latter range, a permutation of
`(resolveAliases aliasOrder).1` tied to it by hypothesis in the theorems
below. -/
def generateG (pkg : Pkg) (source pkgName selfPackage : String)
    (renderEntries : List (String × String)) : GenSt :=
  let g : GenSt := ⟨[], ""⟩
  let g := gp "// Automatically generated by MockGen. DO NOT EDIT!" g
  let g := gp ("// Source: " ++ source) g
  let g := gp "" g
  let g := gp ("package " ++ pkgName) g
  let g := gp "" g
  let g := gp "import (" g
  let g := gin g
  let g := gp "\"reflect\"" g
  let g := renderEntries.foldl
    (fun g e => if e.1 = selfPackage then g else gp (e.2 ++ " " ++ goQuote e.1) g) g
  let g := pkg.dotImports.foldl (fun g p => gp (". " ++ goQuote p) g) g
  let g := gout g
  let g := gp ")" g
  pkg.interfaces.foldl (fun g i => generateMockInterface i g) g

/-- The full emitted text of one generation run, as lines (the external
`go/format` formatter applied afterwards by `Output` is out of scope). -/
def generateLines (pkg : Pkg) (source pkgName selfPackage : String)
    (renderEntries : List (String × String)) : List String :=
  (generateG pkg source pkgName selfPackage renderEntries).buf

/-- The lines of the per-interface section (everything after the import
block), emitted at column zero. -/
def interfacesLines (pkg : Pkg) : List String :=
  (pkg.interfaces.foldl (fun g i => generateMockInterface i g) ⟨[], ""⟩).buf

/-- C2 as the spec words it ("each variadic argument packed as an individual
element" of the parameter list handed to the recorder): textually, the
recording stub would have to extend `params` element by element from the
variadic slice — exactly the emission the source keeps commented out at
mockgen.go:286-291, whose distinctive line is `params = append(params,
param)`.  Holds iff the stub contains such a per-element append. -/
def variadicPackedIndividually (mockType : String) (m : Method) : Bool :=
  (mockMethodLines mockType m).any
    (fun l => "params = append(params, param)".data.isSuffixOf l.data)

/-- Embedding of Go `strings.TrimSuffix` (drop the suffix when present),
working on the underlying character lists. -/
def trimSuffix (s suf : String) : String :=
  if suf.data.isSuffixOf s.data then String.mk (s.data.take (s.data.length - suf.data.length))
  else s

/-- Embedding of Go `strings.ToLower`, restricted to ASCII where it equals
`String.toLower`. -/
def goToLower (s : String) : String := s.toLower

/-- Embedding of Go `filepath.Join` for the two-component uses in
`OutputFilePath`; the path cleaning Join performs is omitted (no input in
this development triggers it). -/
def filepathJoin (dir name : String) : String :=
  if dir = "" then name
  else if name = "" then dir
  else dir ++ "/" ++ name

/-- Modelled from the spec: `util.SourceMode` (package `pegomock/util`, not
under src/).  Per §6 the CLI has "two mutually exclusive input modes —
single-file mode (one path argument) and namespace-introspection mode (…
exactly two arguments)"; single-file mode therefore holds exactly when one
argument is given. -/
def SourceMode (args : List String) : Bool := args.length == 1

/-- Embedding of `OutputFilePath` (mockgen.go:61-69).  `args[0]` and
`args[len(args)-1]` are totalized with `""` defaults (Go would panic on an
empty `args`). -/
def OutputFilePath (args : List String) (outputDirPath outputFilePathOverride : String) : String :=
  if outputFilePathOverride ≠ "" then outputFilePathOverride
  else if SourceMode args then
    filepathJoin outputDirPath ("mock_" ++ trimSuffix (args.headD "") ".go" ++ "_test.go")
  else
    filepathJoin outputDirPath ("mock_" ++ goToLower (args.getLastD "") ++ "_test.go")

/-- The extension-stripping the spec's words for C9 call for: drop the suffix
that starts at the final dot, if any. -/
def stripExt (s : String) : String :=
  let rev := s.data.reverse
  if rev.contains '.' then String.mk ((rev.dropWhile (fun c => c != '.')).drop 1).reverse
  else s

/-- C9 as the spec words it: in single-file mode the name is derived "from
the input file's base name with its extension stripped". -/
def outputFilePathClaimed (args : List String) (outputDirPath outputFilePathOverride : String) : String :=
  if outputFilePathOverride ≠ "" then outputFilePathOverride
  else if SourceMode args then
    filepathJoin outputDirPath ("mock_" ++ stripExt (pathBase (args.headD "")) ++ "_test.go")
  else
    filepathJoin outputDirPath ("mock_" ++ goToLower (args.getLastD "") ++ "_test.go")

/-- C9 amended: in single-file mode the name is derived from the input path
argument as given (directory components retained), with a trailing ".go"
suffix trimmed (other suffixes kept). -/
def outputFilePathAmended (args : List String) (outputDirPath outputFilePathOverride : String) : String :=
  if outputFilePathOverride ≠ "" then outputFilePathOverride
  else if args.length = 1 then
    filepathJoin outputDirPath ("mock_" ++ trimSuffix (args.headD "") ".go" ++ "_test.go")
  else
    filepathJoin outputDirPath ("mock_" ++ goToLower (args.getLastD "") ++ "_test.go")

/-! ### Verification-helper definitions -/

/-- Invariant maintained by the `sanitize` loop: every accumulated character
is a letter, digit or underscore, and the first accumulated character is a
letter or underscore. -/
def sanitizeInv (t : String) : Prop :=
  (∀ c ∈ t.data, goIsLetter c = true ∨ goIsDigit c = true ∨ c = '_') ∧
  (∀ c, t.data.head? = some c → goIsLetter c = true ∨ c = '_')

/-- The recording stub's signature line (mockgen.go:275). -/
def mockMethodSigLine (mockType : String) (m : Method) : String :=
  "func (mock *" ++ mockType ++ ") " ++ m.name ++ "(" ++ (getStuff m).argString ++ ")"
    ++ (getStuff m).retString ++ " \x7b"

/-- The recording stub's parameter-list line (mockgen.go:292): the argument
names joined verbatim into one `[]pegomock.Param` literal. -/
def mockMethodParamsLine (m : Method) : String :=
  "params := []pegomock.Param\x7b" ++ (getStuff m).argNamesString ++ "\x7d"

/-- The recording stub's `Invoke` call line (mockgen.go:295-296). -/
def mockMethodInvokeLine (m : Method) : String :=
  (if m.out.length > 0 then "result :=" else "")
    ++ " pegomock.GetGenericMockFrom(mock).Invoke(\"" ++ m.name ++ "\", params, "
    ++ goBool m.variadic.isSome ++ ", []reflect.Type\x7b"
    ++ String.intercalate ", "
      ((getStuff m).rets.map (fun t => "reflect.TypeOf((*" ++ t ++ ")(nil)).Elem()"))
    ++ "\x7d)"

/-- Closed form of the narrowing loop's output (mockgen.go:305-310): for each
return slot a guarded type assertion, one tab deeper per slot (the loop does
`g.in()` with no matching `g.out()`). -/
def narrowLines (ind : String) : List (Nat × String) → List String
  | [] => []
  | it :: rest =>
    [ind ++ ("if result[" ++ natToDec it.1 ++ "] != nil \x7b"),
     (ind ++ "\t") ++ ("ret" ++ natToDec it.1 ++ "  = result[" ++ natToDec it.1 ++ "].(" ++ it.2 ++ ")"),
     (ind ++ "\t") ++ "\x7d"] ++ narrowLines (ind ++ "\t") rest

/-- Closed form of everything `GenerateMockMethod` appends when entered at
indentation `ind`. -/
def mockMethodDelta (ind : String) (mockType : String) (m : Method) : List String :=
  [ind ++ mockMethodSigLine mockType m,
   (ind ++ "\t") ++ mockMethodParamsLine m,
   (ind ++ "\t") ++ mockMethodInvokeLine m]
  ++ (if m.out.length > 0 then
        ((getStuff m).rets.enum.map
          (fun it => (ind ++ "\t") ++ ("var ret" ++ natToDec it.1 ++ " " ++ it.2)))
        ++ [(ind ++ "\t") ++ "if len(result) != 0 \x7b"]
        ++ narrowLines ((ind ++ "\t") ++ "\t") (getStuff m).rets.enum
        ++ [(ind ++ tabs (m.out.length + 1)) ++ "\x7d",
            (ind ++ tabs (m.out.length + 1)) ++ ("return "
              ++ String.intercalate ", "
                ((List.range m.out.length).map (fun i => "ret" ++ natToDec i))),
            (ind ++ tabs m.out.length) ++ "\x7d"]
      else [ind ++ "\x7d"])

/-- Closed form of the `calcParams` loop body (mockgen.go:408-414), emitted
at a fixed indentation. -/
def calcEntryLines (ind : String) : List (Nat × String) → List String
  | [] => []
  | ia :: rest =>
    [ind ++ ("_param" ++ natToDec ia.1 ++ " = make([]"
        ++ goReplaceAll ((ia.2.splitOn " ").getD 1 "") "..." "[]" ++ ", len(params["
        ++ natToDec ia.1 ++ "]))"),
     ind ++ ("for u, param := range params[" ++ natToDec ia.1 ++ "] \x7b"),
     ind ++ ("_param" ++ natToDec ia.1 ++ "[u]=param.("
        ++ goReplaceAll ((ia.2.splitOn " ").getD 1 "") "..." "[]" ++ ")"),
     ind ++ "\x7d"] ++ calcEntryLines ind rest

/-- Closed form of everything `calcParams` appends. -/
def calcParamsDelta (ind argString : String) (args : List String) (methodName : String) :
    List String :=
  if argString ≠ "" then
    [ind ++ ("params := pegomock.GetGenericMockFrom(c.mock).GetInvocationParams(\""
        ++ methodName ++ "\")"),
     ind ++ "if len(params) > 0 \x7b"]
    ++ calcEntryLines ind args.enum
    ++ [ind ++ "\x7d"]
  else []

/-- Closed form of everything `GenerateVerifierMethod` appends (it never
changes the indentation). -/
def verifierDelta (ind interfaceName : String) (m : Method) : List String :=
  let st := getStuff m
  let argTypes0 := argTypesFrom st.args
  let argTypes :=
    match m.variadic with
    | some _ => argTypes0.set (argTypes0.length - 1) (goReplaceFirst (argTypes0.getLastD "") "..." "[]")
    | none => argTypes0
  let returnTypeString := interfaceName ++ "_" ++ m.name ++ "_OngoingVerification"
  let argsAsArray := st.args.enum.map
    (fun ia => "_param" ++ natToDec ia.1 ++ " []" ++ goReplaceFirst (splitArg ia.2).2 "..." "[]")
  [ind ++ ("type " ++ returnTypeString ++ " struct \x7b"),
   ind ++ ("mock *Mock" ++ interfaceName),
   ind ++ "\x7d",
   ind ++ ("func (c *" ++ returnTypeString ++ ") getCapturedArguments() ("
      ++ String.intercalate ", " argTypes ++ ") \x7b")]
  ++ (if st.args.length > 0 then
        [ind ++ (String.intercalate ", " st.argNames ++ " := c.getAllCapturedArguments()"),
         ind ++ ("return " ++ String.intercalate ", "
            (st.argNames.map (fun an => an ++ "[len(" ++ an ++ ")-1]")))]
      else [])
  ++ [ind ++ "\x7d",
      ind ++ ("func (c *" ++ returnTypeString ++ ") getAllCapturedArguments() ("
        ++ String.intercalate ", " argsAsArray ++ ") \x7b")]
  ++ (if st.args.length > 0 then
        calcParamsDelta ind st.argString st.args m.name ++ [ind ++ "return"]
      else [])
  ++ [ind ++ "\x7d",
      ind ++ ("func (verifier *Verifier" ++ interfaceName ++ ") " ++ m.name ++ "("
        ++ st.argString ++ ") *" ++ returnTypeString ++ " \x7b"),
      ind ++ ("params := []pegomock.Param\x7b" ++ st.argNamesString ++ "\x7d"),
      ind ++ ("pegomock.GetGenericMockFrom(verifier.mock).Verify(verifier.inOrderContext, verifier.invocationCountMatcher, \""
        ++ m.name ++ "\", params, " ++ goBool m.variadic.isSome ++ ")"),
      ind ++ ("return &" ++ returnTypeString ++ "\x7bverifier.mock\x7d"),
      ind ++ "\x7d"]

/-- Total indentation leak of a method list: each mock method leaves the
generator `m.out.length` tabs deeper. -/
def methodsOutSum : List Method → Nat
  | [] => 0
  | m :: rest => m.out.length + methodsOutSum rest

/-- Lines of the mock-method loop (mockgen.go:243-245), tracking the
indentation leak: each method's trailing blank line and every following
method are emitted at the leaked indentation. -/
def mockMethodsLines (mockTypeName ind : String) : List Method → List String
  | [] => []
  | m :: rest =>
    (mockMethodDelta ind mockTypeName m ++ [(ind ++ tabs m.out.length) ++ ""])
      ++ mockMethodsLines mockTypeName (ind ++ tabs m.out.length) rest

/-- Lines of the verifier-method loop (mockgen.go:266-268), at fixed
indentation. -/
def verifierMethodsLines (interfaceName ind : String) : List Method → List String
  | [] => []
  | m :: rest =>
    (verifierDelta ind interfaceName m ++ [ind ++ ""])
      ++ verifierMethodsLines interfaceName ind rest

/-- Closed form of everything `GenerateMockInterface` appends when entered at
indentation `ind`; the whole verifier section inherits the indentation leaked
by the mock methods. -/
def interfaceDelta (ind : String) (iface : Interface) : List String :=
  let mockTypeName := "Mock" ++ iface.name
  [ind ++ "",
   ind ++ ("// Mock of " ++ iface.name ++ " interface"),
   ind ++ ("type " ++ mockTypeName ++ " struct \x7b"),
   (ind ++ "\t") ++ "fail func(message string, callerSkip ...int)",
   ind ++ "\x7d",
   ind ++ "",
   ind ++ ("func New" ++ mockTypeName ++ "() *" ++ mockTypeName ++ " \x7b"),
   (ind ++ "\t") ++ ("return &" ++ mockTypeName ++ "\x7bfail: pegomock.GlobalFailHandler\x7d"),
   ind ++ "\x7d",
   ind ++ ""]
  ++ mockMethodsLines mockTypeName ind iface.methods
  ++ ((fun ind2 =>
      [ind2 ++ ("type Verifier" ++ iface.name ++ " struct \x7b"),
       (ind2 ++ "\t") ++ ("mock *Mock" ++ iface.name),
       (ind2 ++ "\t") ++ "invocationCountMatcher pegomock.Matcher",
       (ind2 ++ "\t") ++ "inOrderContext *pegomock.InOrderContext",
       ind2 ++ "\x7d",
       ind2 ++ "",
       ind2 ++ ("func (mock *Mock" ++ iface.name ++ ") VerifyWasCalledOnce() *Verifier"
          ++ iface.name ++ " \x7b"),
       (ind2 ++ "\t") ++ ("return &Verifier" ++ iface.name ++ "\x7bmock, pegomock.Times(1), nil\x7d"),
       ind2 ++ "\x7d",
       ind2 ++ "",
       ind2 ++ ("func (mock *Mock" ++ iface.name
          ++ ") VerifyWasCalled(invocationCountMatcher pegomock.Matcher) *Verifier"
          ++ iface.name ++ " \x7b"),
       (ind2 ++ "\t") ++ ("return &Verifier" ++ iface.name ++ "\x7bmock, invocationCountMatcher, nil\x7d"),
       ind2 ++ "\x7d",
       ind2 ++ "",
       ind2 ++ ("func (mock *Mock" ++ iface.name
          ++ ") VerifyWasCalledInOrder(invocationCountMatcher pegomock.Matcher, inOrderContext *pegomock.InOrderContext) *Verifier"
          ++ iface.name ++ " \x7b"),
       (ind2 ++ "\t") ++ ("return &Verifier" ++ iface.name ++ "\x7bmock, invocationCountMatcher, inOrderContext\x7d"),
       ind2 ++ "\x7d",
       ind2 ++ ""]
      ++ verifierMethodsLines iface.name ind2 iface.methods)
    (ind ++ tabs (methodsOutSum iface.methods)))

/-- Total indentation leak of an interface list. -/
def ifacesOutSum : List Interface → Nat
  | [] => 0
  | i :: rest => methodsOutSum i.methods + ifacesOutSum rest

/-- Lines of the interface loop of `Generate` (mockgen.go:221-223). -/
def interfacesDelta (ind : String) : List Interface → List String
  | [] => []
  | i :: rest =>
    interfaceDelta ind i
      ++ interfacesDelta (ind ++ tabs (methodsOutSum i.methods)) rest

/-! ### Properties of `sanitize` -/

/-- A character that is not a letter, not a digit and not an underscore is
replaced by `_`, whatever the position. -/
lemma sanitizeStep_invalid (t : String) (c : Char)
    (h1 : goIsLetter c = false) (h2 : goIsDigit c = false) (h3 : c ≠ '_') :
    sanitizeStep t c = t.push '_' := by
  simp [sanitizeStep, h1, h2, h3]

lemma foldl_sanitizeStep_invalid :
    ∀ (cs : List Char) (t : String),
      (∀ c ∈ cs, goIsLetter c = false ∧ goIsDigit c = false ∧ c ≠ '_') →
      cs.foldl sanitizeStep t = ⟨t.data ++ List.replicate cs.length '_'⟩
  | [], t, _ => by simp
  | c :: cs, t, h => by
    have hc := h c (by simp)
    have ih := foldl_sanitizeStep_invalid cs (sanitizeStep t c) (fun d hd => h d (by simp [hd]))
    rw [sanitizeStep_invalid t c hc.1 hc.2.1 hc.2.2] at ih
    rw [List.foldl_cons, sanitizeStep_invalid t c hc.1 hc.2.1 hc.2.2, ih]
    refine congrArg String.mk ?_
    simp [List.replicate_succ]

/-- Each loop iteration of `sanitize` appends exactly one character. -/
lemma foldl_sanitizeStep_length :
    ∀ (cs : List Char) (t : String),
      (cs.foldl sanitizeStep t).data.length = t.data.length + cs.length
  | [], t => by simp
  | c :: cs, t => by
    have ih := foldl_sanitizeStep_length cs (sanitizeStep t c)
    have hstep : (sanitizeStep t c).data.length = t.data.length + 1 := by
      by_cases h0 : t = "" <;> by_cases h1 : goIsLetter c || c = '_' <;>
        by_cases h2 : goIsLetter c || goIsDigit c || c = '_' <;>
        simp_all [sanitizeStep]
    simp only [List.foldl_cons, ih, hstep, List.length_cons]
    omega

/-- Whatever branch the loop body takes, it pushes one character that is
valid in its position. -/
lemma sanitizeStep_char (t : String) (c : Char) :
    ∃ d, sanitizeStep t c = t.push d ∧
      (goIsLetter d = true ∨ goIsDigit d = true ∨ d = '_') ∧
      (t = "" → goIsLetter d = true ∨ d = '_') := by
  unfold sanitizeStep
  by_cases h0 : t = ""
  · by_cases h1 : (goIsLetter c || c = '_') = true
    · refine ⟨c, by simp [h0, h1], ?_, fun _ => ?_⟩ <;>
      · rcases Bool.or_eq_true_iff.mp h1 with h | h
        · tauto
        · have := of_decide_eq_true h; tauto
    · exact ⟨'_', by simp [h0, h1], by tauto, fun _ => by tauto⟩
  · by_cases h2 : (goIsLetter c || goIsDigit c || c = '_') = true
    · refine ⟨c, by simp [h0, h2], ?_, fun he => absurd he h0⟩
      rcases Bool.or_eq_true_iff.mp h2 with h | h
      · rcases Bool.or_eq_true_iff.mp h with h' | h' <;> tauto
      · have := of_decide_eq_true h; tauto
    · exact ⟨'_', by simp [h0, h2], by tauto, fun he => absurd he h0⟩

lemma sanitizeStep_inv (t : String) (c : Char) (h : sanitizeInv t) :
    sanitizeInv (sanitizeStep t c) := by
  obtain ⟨hall, hhead⟩ := h
  obtain ⟨d, hd, hdvalid, hdfirst⟩ := sanitizeStep_char t c
  rw [hd]
  constructor
  · intro e he
    simp only [String.data_push, List.mem_append, List.mem_singleton] at he
    rcases he with he | he
    · exact hall e he
    · subst he; exact hdvalid
  · intro e he
    by_cases h0 : t = ""
    · have hde : d = e := by
        subst h0
        simpa [String.push] using he
      subst hde
      exact hdfirst h0
    · apply hhead
      rw [← he]
      have hne : t.data ≠ [] := fun hnil => h0 (by cases t; simp_all)
      simp only [String.data_push]
      cases ht : t.data with
      | nil => exact absurd ht hne
      | cons x xs => simp

lemma foldl_sanitizeStep_inv :
    ∀ (cs : List Char) (t : String), sanitizeInv t → sanitizeInv (cs.foldl sanitizeStep t)
  | [], _, h => h
  | c :: cs, t, h => foldl_sanitizeStep_inv cs (sanitizeStep t c) (sanitizeStep_inv t c h)

/-! ### Properties of `natToDec` and alias allocation -/

lemma digitChar_toNat (d : Nat) (h : d < 10) : (Nat.digitChar d).toNat = 48 + d := by
  interval_cases d <;> rfl

lemma decVal_append_singleton (cs : List Char) (c : Char) :
    decVal (cs ++ [c]) = decVal cs * 10 + (c.toNat - 48) := by
  simp [decVal, List.foldl_append]

lemma decVal_natToDecAux : ∀ (fuel n : Nat), n < fuel → decVal (natToDecAux fuel n) = n
  | 0, _, h => absurd h (by omega)
  | fuel + 1, n, h => by
    unfold natToDecAux
    by_cases h10 : n < 10
    · simp [h10, decVal, digitChar_toNat n h10]
    · have hdivlt : n / 10 < fuel := by
        have h1 : n / 10 < n := Nat.div_lt_self (by omega) (by omega)
        omega
      have ih := decVal_natToDecAux fuel (n / 10) hdivlt
      simp only [h10, if_false, decVal_append_singleton, ih,
        digitChar_toNat (n % 10) (Nat.mod_lt n (by omega))]
      omega

lemma natToDec_inj {a b : Nat} (h : natToDec a = natToDec b) : a = b := by
  have hdata : natToDecAux (a + 1) a = natToDecAux (b + 1) b := by
    simpa [natToDec, String.ext_iff] using h
  have := decVal_natToDecAux (a + 1) a (by omega)
  rw [hdata, decVal_natToDecAux (b + 1) b (by omega)] at this
  omega

lemma append_natToDec_inj (base : String) : Function.Injective (fun i => base ++ natToDec i) := by
  intro a b h
  simp only at h
  have : (base ++ natToDec a).data = (base ++ natToDec b).data := by rw [h]
  simp only [String.data_append] at this
  exact natToDec_inj (String.ext (List.append_cancel_left this))

lemma isFree_false_mem {ln : List String} {s : String} (h : isFree ln s = false) :
    s ∈ ln ∨ s ∈ goKeywords := by
  by_cases h1 : s ∈ ln
  · exact Or.inl h1
  · right
    simp only [isFree, isKeyword, Bool.and_eq_false_iff, Bool.not_eq_false'] at h
    rcases h with h | h
    · exact absurd (by simpa [List.contains, List.elem_iff] using h) h1
    · simpa [List.contains, List.elem_iff] using h

lemma isFree_true_iff {ln : List String} {s : String} :
    isFree ln s = true ↔ s ∉ ln ∧ isKeyword s = false := by
  simp [isFree, isKeyword, List.contains, List.elem_iff]

/-- Pigeonhole: among the first `|localNames| + 26` suffixed candidates there
is always a free one (the candidates are pairwise distinct; at most
`|localNames|` of them are allocated and at most 25 are keywords). -/
lemma exists_isFree (ln : List String) (base : String) :
    ∃ j, j < ln.length + 26 ∧ isFree ln (base ++ natToDec j) = true := by
  by_contra hcon
  push_neg at hcon
  have hall : ∀ j < ln.length + 26, isFree ln (base ++ natToDec j) = false := by
    intro j hj
    have := hcon j hj
    revert this
    cases isFree ln (base ++ natToDec j) <;> simp
  set cands := (List.range (ln.length + 26)).map (fun j => base ++ natToDec j) with hc
  have hnd : cands.Nodup := List.Nodup.map (append_natToDec_inj base) (List.nodup_range _)
  have hsub : cands ⊆ ln ++ goKeywords := by
    intro s hs
    rw [hc, List.mem_map] at hs
    obtain ⟨j, hj, rfl⟩ := hs
    rw [List.mem_range] at hj
    rcases isFree_false_mem (hall j hj) with h | h
    · exact List.mem_append_left _ h
    · exact List.mem_append_right _ h
  have hsp : List.Subperm cands (ln ++ goKeywords) := List.subperm_of_subset hnd hsub
  have hlen := hsp.length_le
  have h1 : cands.length = ln.length + 26 := by simp [hc]
  have h2 : (ln ++ goKeywords).length = ln.length + 25 := by
    simp [goKeywords]
  omega

lemma allocFrom_isFree (ln : List String) (base : String) :
    ∀ (fuel i : Nat), (∃ j, j < fuel ∧ isFree ln (base ++ natToDec (i + j)) = true) →
      isFree ln (allocFrom ln base fuel i) = true
  | 0, _, h => by obtain ⟨j, hj, _⟩ := h; omega
  | fuel + 1, i, h => by
    unfold allocFrom
    by_cases hf : isFree ln (base ++ natToDec i) = true
    · simp [hf]
    · simp only [hf, Bool.false_eq_true, if_false]
      apply allocFrom_isFree ln base fuel (i + 1)
      obtain ⟨j, hj, hfree⟩ := h
      cases j with
      | zero => exact absurd (by simpa using hfree) hf
      | succ j' =>
        refine ⟨j', by omega, ?_⟩
        rw [show i + 1 + j' = i + (j' + 1) from by omega]
        exact hfree

/-- The loop returns the first free suffixed candidate: shape, freeness and
minimality. -/
lemma allocFrom_first (ln : List String) (base : String) :
    ∀ (fuel i : Nat), (∃ j, j < fuel ∧ isFree ln (base ++ natToDec (i + j)) = true) →
      ∃ k, allocFrom ln base fuel i = base ++ natToDec k ∧ i ≤ k ∧
        isFree ln (base ++ natToDec k) = true ∧
        ∀ j, i ≤ j → j < k → isFree ln (base ++ natToDec j) = false
  | 0, _, h => by obtain ⟨j, hj, _⟩ := h; omega
  | fuel + 1, i, h => by
    unfold allocFrom
    by_cases hf : isFree ln (base ++ natToDec i) = true
    · exact ⟨i, by simp [hf], le_refl i, hf, fun j h1 h2 => by omega⟩
    · simp only [hf, Bool.false_eq_true, if_false]
      have hnext : ∃ j, j < fuel ∧ isFree ln (base ++ natToDec (i + 1 + j)) = true := by
        obtain ⟨j, hj, hfree⟩ := h
        cases j with
        | zero => exact absurd (by simpa using hfree) hf
        | succ j' =>
          refine ⟨j', by omega, ?_⟩
          rw [show i + 1 + j' = i + (j' + 1) from by omega]
          exact hfree
      obtain ⟨k, hk, hik, hkfree, hmin⟩ := allocFrom_first ln base fuel (i + 1) hnext
      refine ⟨k, hk, by omega, hkfree, fun j h1 h2 => ?_⟩
      by_cases hji : j = i
      · subst hji
        cases hval : isFree ln (base ++ natToDec j)
        · rfl
        · exact absurd hval hf
      · exact hmin j (by omega) h2

lemma allocAlias_isFree (ln : List String) (base : String) :
    isFree ln (allocAlias ln base) = true := by
  unfold allocAlias
  by_cases hf : isFree ln base = true
  · simp [hf]
  · simp only [hf, Bool.false_eq_true, if_false]
    apply allocFrom_isFree
    obtain ⟨j, hj, hfree⟩ := exists_isFree ln base
    exact ⟨j, hj, by simpa using hfree⟩

lemma allocAlias_first (ln : List String) (base : String) (hf : isFree ln base = false) :
    ∃ k, allocAlias ln base = base ++ natToDec k ∧
      isFree ln (base ++ natToDec k) = true ∧
      ∀ j, j < k → isFree ln (base ++ natToDec j) = false := by
  unfold allocAlias
  simp only [hf, Bool.false_eq_true, if_false]
  have hex : ∃ j, j < ln.length + 26 ∧ isFree ln (base ++ natToDec (0 + j)) = true := by
    obtain ⟨j, hj, hfree⟩ := exists_isFree ln base
    exact ⟨j, hj, by simpa using hfree⟩
  obtain ⟨k, hk, _, hkfree, hmin⟩ := allocFrom_first ln base (ln.length + 26) 0 hex
  exact ⟨k, hk, hkfree, fun j hj => hmin j (by omega) hj⟩

lemma allocFrom_shape (ln : List String) (base : String) :
    ∀ (fuel i : Nat), ∃ k, allocFrom ln base fuel i = base ++ natToDec k
  | 0, i => ⟨i, rfl⟩
  | fuel + 1, i => by
    unfold allocFrom
    by_cases hf : isFree ln (base ++ natToDec i) = true
    · exact ⟨i, by simp [hf]⟩
    · simp only [hf, Bool.false_eq_true, if_false]
      exact allocFrom_shape ln base fuel (i + 1)

lemma allocAlias_shape (ln : List String) (base : String) :
    allocAlias ln base = base ∨ ∃ k, allocAlias ln base = base ++ natToDec k := by
  unfold allocAlias
  by_cases hf : isFree ln base = true
  · left; simp [hf]
  · right
    simp only [hf, Bool.false_eq_true, if_false]
    exact allocFrom_shape ln base _ 0

/-- The state invariant of the alias-resolution fold: every allocated alias
is in `localNames`, the aliases are pairwise distinct, none is a keyword, and
each is the sanitized basename of its path, possibly with a decimal suffix. -/
lemma resolveAliases_fold_inv :
    ∀ (paths : List String) (pm : List (String × String)) (ln : List String),
      (∀ e ∈ pm, e.2 ∈ ln) →
      (pm.map Prod.snd).Nodup →
      (∀ e ∈ pm, isKeyword e.2 = false) →
      (∀ e ∈ pm, e.2 = sanitize (pathBase e.1) ∨
        ∃ k, e.2 = sanitize (pathBase e.1) ++ natToDec k) →
      (∀ e ∈ (paths.foldl
          (fun st pth =>
            let a := allocAlias st.2 (sanitize (pathBase pth))
            (st.1 ++ [(pth, a)], a :: st.2)) (pm, ln)).1,
        isKeyword e.2 = false ∧
        (e.2 = sanitize (pathBase e.1) ∨ ∃ k, e.2 = sanitize (pathBase e.1) ++ natToDec k)) ∧
      ((paths.foldl
          (fun st pth =>
            let a := allocAlias st.2 (sanitize (pathBase pth))
            (st.1 ++ [(pth, a)], a :: st.2)) (pm, ln)).1.map Prod.snd).Nodup
  | [], pm, ln, hmem, hnd, hkw, hshape => by
    exact ⟨fun e he => ⟨hkw e he, hshape e he⟩, hnd⟩
  | pth :: paths, pm, ln, hmem, hnd, hkw, hshape => by
    simp only [List.foldl_cons]
    set a := allocAlias ln (sanitize (pathBase pth)) with ha
    have hafree : isFree ln a = true := allocAlias_isFree ln (sanitize (pathBase pth))
    have hanotln : a ∉ ln := (isFree_true_iff.mp hafree).1
    have hakw : isKeyword a = false := (isFree_true_iff.mp hafree).2
    apply resolveAliases_fold_inv paths (pm ++ [(pth, a)]) (a :: ln)
    · intro e he
      rcases List.mem_append.mp he with he | he
      · exact List.mem_cons_of_mem a (hmem e he)
      · simp only [List.mem_singleton] at he
        subst he
        exact List.mem_cons_self a ln
    · rw [List.map_append, List.nodup_append]
      refine ⟨hnd, by simp, ?_⟩
      intro x hx hx'
      simp only [List.map_cons, List.map_nil, List.mem_singleton] at hx'
      subst hx'
      obtain ⟨e, he, hee⟩ := List.mem_map.mp hx
      exact hanotln (hee ▸ hmem e he)
    · intro e he
      rcases List.mem_append.mp he with he | he
      · exact hkw e he
      · simp only [List.mem_singleton] at he
        subst he
        exact hakw
    · intro e he
      rcases List.mem_append.mp he with he | he
      · exact hshape e he
      · simp only [List.mem_singleton] at he
        subst he
        simpa using allocAlias_shape ln (sanitize (pathBase pth))

/-- Entries already present survive the fold, and every processed path gains
an entry. -/
lemma resolveAliases_fold_mem :
    ∀ (paths : List String) (pm : List (String × String)) (ln : List String) (p : String),
      ((∃ a, (p, a) ∈ pm) ∨ p ∈ paths) →
      ∃ a, (p, a) ∈ (paths.foldl
        (fun st pth =>
          let a := allocAlias st.2 (sanitize (pathBase pth))
          (st.1 ++ [(pth, a)], a :: st.2)) (pm, ln)).1
  | [], pm, ln, p, h => by
    rcases h with ⟨a, ha⟩ | h
    · exact ⟨a, ha⟩
    · simp at h
  | pth :: paths, pm, ln, p, h => by
    simp only [List.foldl_cons]
    apply resolveAliases_fold_mem paths _ _ p
    rcases h with ⟨a, ha⟩ | h
    · exact Or.inl ⟨a, List.mem_append_left _ ha⟩
    · rcases List.mem_cons.mp h with h | h
      · subst h
        exact Or.inl ⟨_, List.mem_append_right _ (List.mem_singleton.mpr rfl)⟩
      · exact Or.inr h

/-! ### Claims C1, C3, C10 -/

/-- C1: for every list of import paths handed to alias resolution (in the
order Go iterates the unordered import set), the resulting path-to-alias
mapping is injective — no two distinct paths receive the same alias — and no
allocated alias is a Go keyword; each alias is the sanitized basename,
possibly with a decimal suffix, and the suffix search tries 0, 1, 2, …
returning the first candidate that is neither already allocated nor a
keyword. -/
theorem c1_alias_resolution (paths : List String) :
    (∀ p₁ a₁ p₂ a₂, (p₁, a₁) ∈ (resolveAliases paths).1 →
      (p₂, a₂) ∈ (resolveAliases paths).1 → p₁ ≠ p₂ → a₁ ≠ a₂) ∧
    (∀ p a, (p, a) ∈ (resolveAliases paths).1 → isKeyword a = false) ∧
    (∀ p a, (p, a) ∈ (resolveAliases paths).1 →
      a = sanitize (pathBase p) ∨ ∃ k, a = sanitize (pathBase p) ++ natToDec k) ∧
    (∀ ln base, (isFree ln base = true → allocAlias ln base = base) ∧
      (isFree ln base = false → ∃ k, allocAlias ln base = base ++ natToDec k ∧
        isFree ln (base ++ natToDec k) = true ∧
        ∀ j, j < k → isFree ln (base ++ natToDec j) = false)) := by
  have hinv := resolveAliases_fold_inv paths [] []
    (by simp) (by simp) (by simp) (by simp)
  obtain ⟨hprop, hnd⟩ := hinv
  refine ⟨?_, ?_, ?_, ?_⟩
  · intro p₁ a₁ p₂ a₂ h₁ h₂ hne heq
    have := List.inj_on_of_nodup_map (f := Prod.snd) hnd h₁ h₂ (by simp [heq])
    exact hne (congrArg Prod.fst this)
  · intro p a h
    exact (hprop (p, a) h).1
  · intro p a h
    exact (hprop (p, a) h).2
  · intro ln base
    constructor
    · intro hf
      unfold allocAlias
      simp [hf]
    · intro hf
      exact allocAlias_first ln base hf

/-- Witness for C1 at concrete inputs: with paths `a/x` and `b/x` (duplicate
basename `x`) the two aliases differ (`x` vs `x0`), `x0` is not a keyword,
and with `x` taken the allocator returns the suffixed candidate `x0`
immediately. -/
theorem c1_alias_resolution_w :
    (("x" : String) ≠ "x0") ∧ isKeyword "x0" = false ∧
    (∃ k, allocAlias ["x"] "x" = "x" ++ natToDec k ∧
      isFree ["x"] ("x" ++ natToDec k) = true ∧
      ∀ j, j < k → isFree ["x"] ("x" ++ natToDec j) = false) :=
  ⟨(c1_alias_resolution ["a/x", "b/x"]).1 "a/x" "x" "b/x" "x0"
      (by decide) (by decide) (by decide),
   (c1_alias_resolution ["a/x", "b/x"]).2.1 "b/x" "x0" (by decide),
   ((c1_alias_resolution []).2.2.2 ["x"] "x").2 (by decide)⟩

/-- Counterexample for C3: `sanitize` maps the empty string to the empty
string, not to the fixed fallback identifier `"x"` (the fallback fires only
when the accumulated result is exactly `"_"`), and it maps the all-invalid
string `"---"` to `"___"`, again not to the fallback; the middle example of
the claim does hold. -/
theorem c3_sanitize_cex :
    sanitize "" = "" ∧ sanitize "" ≠ "x" ∧
    sanitize "---" = "___" ∧ sanitize "---" ≠ "x" ∧
    sanitize "my-pkg.v2" = "my_pkg_v2" := by
  decide

/-- C3 amended: `sanitize` maps the empty string to the empty string, maps
`"my-pkg.v2"` to `"my_pkg_v2"`, and maps a string consisting only of invalid
characters (not a letter, not a digit, not an underscore) to one underscore
per character — except that a single invalid character yields the fixed
fallback identifier `"x"`. -/
theorem c3_sanitize_amended :
    sanitize "" = "" ∧ sanitize "my-pkg.v2" = "my_pkg_v2" ∧
    ∀ s : String, (∀ c ∈ s.data, goIsLetter c = false ∧ goIsDigit c = false ∧ c ≠ '_') →
      sanitize s = if s.data.length = 1 then "x" else ⟨List.replicate s.data.length '_'⟩ := by
  refine ⟨by decide, by decide, ?_⟩
  intro s h
  have hfold : s.data.foldl sanitizeStep "" = ⟨List.replicate s.data.length '_'⟩ := by
    have := foldl_sanitizeStep_invalid s.data "" h
    simpa using this
  have hone : ((⟨List.replicate s.data.length '_'⟩ : String) = "_") ↔ s.data.length = 1 := by
    constructor
    · intro heq
      have : List.replicate s.data.length '_' = ['_'] := by
        have := String.ext_iff.mp heq
        simpa using this
      have := congrArg List.length this
      simpa using this
    · intro heq
      rw [heq]
      rfl
  unfold sanitize
  rw [hfold]
  by_cases hl : s.data.length = 1
  · rw [if_pos (hone.mpr hl), if_pos hl]
  · rw [if_neg (fun hc => hl (hone.mp hc)), if_neg hl]

/-- Witness for C3 (amended) at the concrete all-invalid input `"##"`. -/
theorem c3_sanitize_amended_w :
    sanitize "##" =
      if "##".data.length = 1 then "x" else ⟨List.replicate "##".data.length '_'⟩ :=
  c3_sanitize_amended.2.2 "##" (by decide)

/-- C10: for every non-empty input, `sanitize` returns a non-empty valid
identifier: every character of the result is a letter, digit or underscore,
and the first character is a letter or underscore (never a digit). -/
theorem c10_sanitize_valid_identifier (s : String) (h : s ≠ "") :
    sanitize s ≠ "" ∧
    (∀ c ∈ (sanitize s).data, goIsLetter c = true ∨ goIsDigit c = true ∨ c = '_') ∧
    (∀ c, (sanitize s).data.head? = some c → goIsLetter c = true ∨ c = '_') := by
  have hsne : s.data ≠ [] := by
    intro hnil
    exact h (by cases s; simp_all)
  have hlen : (s.data.foldl sanitizeStep "").data.length = s.data.length := by
    have := foldl_sanitizeStep_length s.data ""
    simpa using this
  have hpos : 0 < s.data.length := List.length_pos.mpr hsne
  have htne : s.data.foldl sanitizeStep "" ≠ "" := by
    intro hc
    rw [hc] at hlen
    have h0 : s.data.length = 0 := by simpa using hlen.symm
    omega
  have hinv : sanitizeInv (s.data.foldl sanitizeStep "") :=
    foldl_sanitizeStep_inv s.data "" ⟨by simp, by simp⟩
  unfold sanitize
  by_cases hu : s.data.foldl sanitizeStep "" = "_"
  · rw [hu]
    exact ⟨by decide, by decide, by decide⟩
  · simp only [hu, if_false]
    exact ⟨htne, hinv.1, hinv.2⟩

/-- Witness for C10 at the concrete input `"9a-"` (leading digit, trailing
invalid character). -/
theorem c10_sanitize_valid_identifier_w :
    sanitize "9a-" ≠ "" ∧
    (∀ c ∈ (sanitize "9a-").data, goIsLetter c = true ∨ goIsDigit c = true ∨ c = '_') ∧
    (∀ c, (sanitize "9a-").data.head? = some c → goIsLetter c = true ∨ c = '_') :=
  c10_sanitize_valid_identifier "9a-" (by decide)

/-! ### Properties of the generator state and the emitted mock method -/

lemma tabs_zero : tabs 0 = "" := rfl

lemma tab_tabs (n : Nat) : "\t" ++ tabs n = tabs (n + 1) := by
  apply String.ext
  simp [tabs, List.replicate_succ]

lemma gout_tabs (b : List String) (ind : String) (k : Nat) :
    gout ⟨b, ind ++ tabs (k + 1)⟩ = ⟨b, ind ++ tabs k⟩ := by
  have hdata : (ind ++ tabs (k + 1)).data = ind.data ++ List.replicate (k + 1) '\t' := by
    simp [tabs]
  have hpos : 0 < (ind ++ tabs (k + 1)).length := by
    simp [tabs]
  have h1 : gout ⟨b, ind ++ tabs (k + 1)⟩
      = ⟨b, if (ind ++ tabs (k + 1)).length > 0
            then String.mk ((ind ++ tabs (k + 1)).data.take ((ind ++ tabs (k + 1)).data.length - 1))
            else ind ++ tabs (k + 1)⟩ := rfl
  rw [h1, if_pos hpos]
  refine congrArg (GenSt.mk b) ?_
  apply String.ext
  show List.take ((ind ++ tabs (k + 1)).data.length - 1) (ind ++ tabs (k + 1)).data
      = (ind ++ tabs k).data
  rw [hdata]
  simp only [List.length_append, List.length_replicate]
  rw [show ind.data.length + (k + 1) - 1 = ind.data.length + k from by omega]
  rw [List.take_append_eq_append_take]
  rw [List.take_of_length_le (by omega)]
  rw [show ind.data.length + k - ind.data.length = k from by omega]
  rw [show List.replicate (k + 1) '\t' = List.replicate k '\t' ++ ['\t'] from by
    simpa using (List.replicate_succ' k '\t')]
  rw [List.take_left' (List.length_replicate k '\t')]
  simp [tabs]

lemma gout_tab (b : List String) (ind : String) : gout ⟨b, ind ++ "\t"⟩ = ⟨b, ind⟩ := by
  have h := gout_tabs b ind 0
  rw [show (tabs 1 : String) = "\t" from rfl, tabs_zero, String.append_empty] at h
  exact h

lemma gout_tab1 (b : List String) : gout ⟨b, "\t"⟩ = ⟨b, ""⟩ := gout_tab b ""

/-- The `var ret<i> <type>` loop (mockgen.go:299-301) only appends lines. -/
lemma varDecl_foldl_eq :
    ∀ (l : List (Nat × String)) (g : GenSt),
      l.foldl (fun g it => gp ("var ret" ++ natToDec it.1 ++ " " ++ it.2) g) g
        = ⟨g.buf ++ l.map (fun it => g.indent ++ ("var ret" ++ natToDec it.1 ++ " " ++ it.2)), g.indent⟩
  | [], g => by simp
  | it :: l, g => by
    rw [List.foldl_cons, varDecl_foldl_eq l _]
    simp [gp]

/-- Closed form of the narrowing loop (mockgen.go:305-310): it appends
`narrowLines` and leaves the indentation one tab deeper per iteration. -/
lemma narrow_foldl_eq :
    ∀ (l : List (Nat × String)) (g : GenSt),
      l.foldl
        (fun g it =>
          let g := gp ("if result[" ++ natToDec it.1 ++ "] != nil \x7b") g
          let g := gin g
          let g := gp ("ret" ++ natToDec it.1 ++ "  = result[" ++ natToDec it.1 ++ "].(" ++ it.2 ++ ")") g
          gp "\x7d" g) g
        = ⟨g.buf ++ narrowLines g.indent l, g.indent ++ tabs l.length⟩
  | [], g => by simp [narrowLines, tabs_zero]
  | it :: l, g => by
    rw [List.foldl_cons]
    show l.foldl _ (gp "\x7d" (gp _ (gin (gp _ g)))) = _
    rw [narrow_foldl_eq l _]
    simp only [gp, gin, narrowLines, List.length_cons, GenSt.mk.injEq]
    refine ⟨?_, ?_⟩
    · simp [List.append_assoc]
    · rw [String.append_assoc, tab_tabs]

lemma getStuff_rets (m : Method) : (getStuff m).rets = m.out.map (fun p => p.typeStr) := rfl

lemma getStuff_rets_length (m : Method) : (getStuff m).rets.length = m.out.length := by
  rw [getStuff_rets, List.length_map]

/-- Closed form of `GenerateMockMethod`: entered at any state, it appends
exactly `mockMethodDelta` and leaves the indentation `m.out.length` tabs
deeper (the narrowing loop's unmatched `g.in()` calls). -/
lemma generateMockMethod_eq (mockType : String) (m : Method) (g : GenSt) :
    generateMockMethod mockType m g
      = ⟨g.buf ++ mockMethodDelta g.indent mockType m, g.indent ++ tabs m.out.length⟩ := by
  by_cases h : m.out.length > 0
  · unfold generateMockMethod mockMethodDelta
    simp only [if_pos h]
    rw [varDecl_foldl_eq, narrow_foldl_eq]
    unfold mockMethodSigLine mockMethodParamsLine mockMethodInvokeLine
    simp only [if_pos h, gp, gin, gout_tabs, gout_tab,
      List.enum_length, getStuff_rets_length, tab_tabs, String.append_assoc,
      List.append_assoc, List.cons_append, List.nil_append, List.singleton_append]
  · have h0 : m.out.length = 0 := by omega
    unfold generateMockMethod mockMethodDelta
    unfold mockMethodSigLine mockMethodParamsLine mockMethodInvokeLine
    simp only [if_neg h, gp, gin, gout_tab,
      String.append_assoc, List.append_assoc, List.cons_append, List.nil_append,
      List.singleton_append]
    rw [h0, tabs_zero, String.append_empty]

lemma mockMethodLines_eq (mockType : String) (m : Method) :
    mockMethodLines mockType m = mockMethodDelta "" mockType m := by
  show (generateMockMethod mockType m ⟨[], ""⟩).buf = _
  rw [generateMockMethod_eq]
  exact List.nil_append _

lemma buildArgs_length : ∀ (i : Nat) (l : List Param), (buildArgs i l).length = l.length
  | _, [] => rfl
  | i, _ :: l => by simp [buildArgs, buildArgs_length (i + 1) l]

lemma getStuff_argNames (m : Method) :
    (getStuff m).argNames =
      (match m.variadic with
       | some v => (buildArgs 0 m.inParams).map Prod.snd ++ [paramName m.inParams.length v]
       | none => (buildArgs 0 m.inParams).map Prod.snd) := rfl

lemma getStuff_argNamesString (m : Method) :
    (getStuff m).argNamesString = String.intercalate ", " (getStuff m).argNames := rfl

lemma getStuff_argString (m : Method) :
    (getStuff m).argString = String.intercalate ", " (getStuff m).args := rfl

lemma getStuff_args_length (m : Method) :
    (getStuff m).args.length = m.inParams.length + (if m.variadic.isSome then 1 else 0) := by
  cases hv : m.variadic <;>
    simp [getStuff, hv, buildArgs_length]

lemma getStuff_retString (m : Method) :
    (getStuff m).retString =
      (if (if (getStuff m).rets.length > 1
           then "(" ++ String.intercalate ", " (getStuff m).rets ++ ")"
           else String.intercalate ", " (getStuff m).rets) ≠ ""
       then " " ++ (if (getStuff m).rets.length > 1
           then "(" ++ String.intercalate ", " (getStuff m).rets ++ ")"
           else String.intercalate ", " (getStuff m).rets)
       else (if (getStuff m).rets.length > 1
           then "(" ++ String.intercalate ", " (getStuff m).rets ++ ")"
           else String.intercalate ", " (getStuff m).rets)) := rfl

lemma space_append_ne_empty (x : String) : " " ++ x ≠ "" := by
  intro hc
  have h := congrArg String.length hc
  rw [String.length_append] at h
  have h1 : (" ").length = 1 := rfl
  have h0 : ("" : String).length = 0 := rfl
  omega

lemma paren_append_ne_empty (x : String) : "(" ++ x ++ ")" ≠ "" := by
  intro hc
  have h := congrArg String.length hc
  rw [String.length_append, String.length_append] at h
  have h1 : ("(").length = 1 := rfl
  have h2 : (")").length = 1 := rfl
  have h0 : ("" : String).length = 0 := rfl
  omega

lemma getElem?_enum' {α : Type} (l : List α) (i : Nat) :
    l.enum[i]? = l[i]?.map (fun a => (i, a)) := by
  show (List.enumFrom 0 l)[i]? = _
  rw [List.getElem?_enumFrom]
  simp

lemma mem_enum_of_get? {α : Type} {l : List α} {i : Nat} {a : α} (h : l.get? i = some a) :
    (i, a) ∈ l.enum := by
  apply List.getElem?_mem (n := i)
  rw [getElem?_enum', ← List.get?_eq_getElem?, h]
  rfl

/-- Membership of the narrowing lines, with the per-slot indentation made
explicit: the `j`-th slot's lines carry `j` extra tabs. -/
lemma narrowLines_mem :
    ∀ (l : List (Nat × String)) (ind : String) (j : Nat) (p : Nat × String),
      l.get? j = some p →
      ((ind ++ tabs j) ++ ("if result[" ++ natToDec p.1 ++ "] != nil \x7b")) ∈ narrowLines ind l ∧
      (((ind ++ tabs j) ++ "\t")
          ++ ("ret" ++ natToDec p.1 ++ "  = result[" ++ natToDec p.1 ++ "].(" ++ p.2 ++ ")"))
        ∈ narrowLines ind l
  | [], _, j, _, h => by simp at h
  | q :: l, ind, 0, p, h => by
    have hpq : q = p := by simpa using h
    subst hpq
    rw [tabs_zero, String.append_empty]
    constructor
    · simp [narrowLines]
    · simp [narrowLines]
  | q :: l, ind, j + 1, p, h => by
    have ih := narrowLines_mem l (ind ++ "\t") j p (by simpa using h)
    have hind : ind ++ tabs (j + 1) = (ind ++ "\t") ++ tabs j := by
      rw [String.append_assoc, tab_tabs]
    rw [hind]
    refine ⟨?_, ?_⟩
    · have := ih.1
      simp only [narrowLines, List.cons_append, List.singleton_append]
      exact List.mem_cons_of_mem _ (List.mem_cons_of_mem _ (List.mem_cons_of_mem _ this))
    · have := ih.2
      simp only [narrowLines, List.cons_append, List.singleton_append]
      exact List.mem_cons_of_mem _ (List.mem_cons_of_mem _ (List.mem_cons_of_mem _ this))

lemma tabs_add (a b : Nat) : tabs a ++ tabs b = tabs (a + b) := by
  apply String.ext
  show List.replicate a '\t' ++ List.replicate b '\t' = List.replicate (a + b) '\t'
  exact List.append_replicate_replicate

lemma tabs_tab (n : Nat) : tabs n ++ "\t" = tabs (n + 1) := by
  apply String.ext
  simp [tabs]
  simpa using (List.replicate_succ' n '\t').symm

lemma intercalate_single (s t : String) : String.intercalate s [t] = t := rfl

lemma enum_get?_of_get? {α : Type} {l : List α} {i : Nat} {a : α} (h : l.get? i = some a) :
    l.enum.get? i = some (i, a) := by
  rw [List.get?_eq_getElem?, getElem?_enum', ← List.get?_eq_getElem?, h]
  rfl

/-! ### Claims C2, C4, C5 -/

/-- Counterexample for C2: for a concrete method `Do(a int, xs ...string)`
the emitted recording stub passes the variadic group `xs` as one single
element of the `params` literal (`[]pegomock.Param{a, xs}`) and contains no
per-element append of the variadic arguments, so the variadic arguments are
not packed as individual elements of the list handed to `Invoke`. -/
theorem c2_variadic_cex :
    mockMethodLines "MockFoo" ⟨"Do", [⟨"a", "int"⟩], some ⟨"xs", "string"⟩, []⟩ =
      ["func (mock *MockFoo) Do(a int, xs ...string) \x7b",
       "\tparams := []pegomock.Param\x7ba, xs\x7d",
       "\t pegomock.GetGenericMockFrom(mock).Invoke(\"Do\", params, true, []reflect.Type\x7b\x7d)",
       "\x7d"] ∧
    variadicPackedIndividually "MockFoo" ⟨"Do", [⟨"a", "int"⟩], some ⟨"xs", "string"⟩, []⟩ = false := by
  decide

/-- C2 amended: in the recording stub of a variadic method the whole variadic
slice is passed as a single element — the last one — of the ordered
parameter-list literal handed to the recorder's `Invoke`, which instead
receives the variadic flag `true`. -/
theorem c2_variadic_single_element (mockType : String) (m : Method) (v : Param)
    (h : m.variadic = some v) :
    (getStuff m).argNames.getLast? = some (paramName m.inParams.length v) ∧
    (mockMethodLines mockType m).get? 1 = some ("\t" ++ mockMethodParamsLine m) ∧
    mockMethodParamsLine m =
      "params := []pegomock.Param\x7b" ++ String.intercalate ", " (getStuff m).argNames ++ "\x7d" ∧
    (mockMethodLines mockType m).get? 2 = some ("\t" ++ mockMethodInvokeLine m) ∧
    mockMethodInvokeLine m =
      (if m.out.length > 0 then "result :=" else "")
        ++ " pegomock.GetGenericMockFrom(mock).Invoke(\"" ++ m.name ++ "\", params, "
        ++ "true" ++ ", []reflect.Type\x7b"
        ++ String.intercalate ", "
          ((getStuff m).rets.map (fun t => "reflect.TypeOf((*" ++ t ++ ")(nil)).Elem()"))
        ++ "\x7d)" := by
  refine ⟨?_, ?_, ?_, ?_, ?_⟩
  · rw [getStuff_argNames, h]
    simp
  · rw [mockMethodLines_eq]
    unfold mockMethodDelta
    rfl
  · rw [mockMethodParamsLine, getStuff_argNamesString]
  · rw [mockMethodLines_eq]
    unfold mockMethodDelta
    rfl
  · rw [mockMethodInvokeLine, h]
    rfl

/-- Witness for C2 (amended) at the concrete variadic method
`Send(to string, msgs ...int) error`. -/
theorem c2_variadic_single_element_w :
    (getStuff ⟨"Send", [⟨"to", "string"⟩], some ⟨"msgs", "int"⟩, [⟨"", "error"⟩]⟩).argNames.getLast?
      = some (paramName 1 ⟨"msgs", "int"⟩) ∧
    (mockMethodLines "MockS" ⟨"Send", [⟨"to", "string"⟩], some ⟨"msgs", "int"⟩, [⟨"", "error"⟩]⟩).get? 1
      = some ("\t" ++ mockMethodParamsLine ⟨"Send", [⟨"to", "string"⟩], some ⟨"msgs", "int"⟩, [⟨"", "error"⟩]⟩) ∧
    mockMethodParamsLine ⟨"Send", [⟨"to", "string"⟩], some ⟨"msgs", "int"⟩, [⟨"", "error"⟩]⟩ =
      "params := []pegomock.Param\x7b"
        ++ String.intercalate ", "
          (getStuff ⟨"Send", [⟨"to", "string"⟩], some ⟨"msgs", "int"⟩, [⟨"", "error"⟩]⟩).argNames
        ++ "\x7d" ∧
    (mockMethodLines "MockS" ⟨"Send", [⟨"to", "string"⟩], some ⟨"msgs", "int"⟩, [⟨"", "error"⟩]⟩).get? 2
      = some ("\t" ++ mockMethodInvokeLine ⟨"Send", [⟨"to", "string"⟩], some ⟨"msgs", "int"⟩, [⟨"", "error"⟩]⟩) ∧
    mockMethodInvokeLine ⟨"Send", [⟨"to", "string"⟩], some ⟨"msgs", "int"⟩, [⟨"", "error"⟩]⟩ =
      (if ([⟨"", "error"⟩] : List Param).length > 0 then "result :=" else "")
        ++ " pegomock.GetGenericMockFrom(mock).Invoke(\"" ++ "Send" ++ "\", params, "
        ++ "true" ++ ", []reflect.Type\x7b"
        ++ String.intercalate ", "
          ((getStuff ⟨"Send", [⟨"to", "string"⟩], some ⟨"msgs", "int"⟩, [⟨"", "error"⟩]⟩).rets.map
            (fun t => "reflect.TypeOf((*" ++ t ++ ")(nil)).Elem()"))
        ++ "\x7d)" :=
  c2_variadic_single_element "MockS" ⟨"Send", [⟨"to", "string"⟩], some ⟨"msgs", "int"⟩, [⟨"", "error"⟩]⟩
    ⟨"msgs", "int"⟩ rfl

/-- C4: a method with N declared inputs and M declared outputs yields a stub
whose signature carries exactly N parameters (plus the variadic one if
declared, all joined into the signature line), and whose return clause has
exactly M components — absent iff M = 0, parenthesized iff M > 1, the bare
type for M = 1. -/
theorem c4_arity_roundtrip (mockType : String) (m : Method)
    (h : ∀ t ∈ (getStuff m).rets, t ≠ "") :
    (getStuff m).args.length = m.inParams.length + (if m.variadic.isSome then 1 else 0) ∧
    (getStuff m).rets.length = m.out.length ∧
    ((getStuff m).retString = "" ↔ m.out.length = 0) ∧
    (m.out.length > 1 →
      (getStuff m).retString = " (" ++ (String.intercalate ", " (getStuff m).rets ++ ")")) ∧
    (∀ t, (getStuff m).rets = [t] → (getStuff m).retString = " " ++ t) ∧
    (mockMethodLines mockType m).get? 0 = some (mockMethodSigLine mockType m) ∧
    (getStuff m).argString = String.intercalate ", " (getStuff m).args := by
  refine ⟨getStuff_args_length m, getStuff_rets_length m, ?_, ?_, ?_, ?_, getStuff_argString m⟩
  · constructor
    · intro he
      by_contra h0
      have hne : (getStuff m).rets ≠ [] := by
        intro hc
        have := getStuff_rets_length m
        rw [hc] at this
        simp at this
        omega
      rcases hrets : (getStuff m).rets with _ | ⟨t, _ | ⟨t2, r⟩⟩
      · exact hne hrets
      · have ht : t ≠ "" := h t (by rw [hrets]; simp)
        have hA : (if (([t] : List String).length > 1)
              then "(" ++ String.intercalate ", " [t] ++ ")"
              else String.intercalate ", " [t]) = t := by
          simp [intercalate_single]
        rw [getStuff_retString, hrets, hA, if_pos ht] at he
        exact space_append_ne_empty t he
      · have hA : (if ((t :: t2 :: r).length > 1)
              then "(" ++ String.intercalate ", " (t :: t2 :: r) ++ ")"
              else String.intercalate ", " (t :: t2 :: r))
            = "(" ++ String.intercalate ", " (t :: t2 :: r) ++ ")" := by
          rw [if_pos (by simp)]
        rw [getStuff_retString, hrets, hA, if_pos (paren_append_ne_empty _)] at he
        exact space_append_ne_empty _ he
    · intro h0
      have hr : (getStuff m).rets = [] := by
        have := getStuff_rets_length m
        rw [h0] at this
        exact List.length_eq_zero.mp this
      rw [getStuff_retString, hr]
      simp [show String.intercalate ", " ([] : List String) = "" from rfl]
  · intro hM
    have hlen : (getStuff m).rets.length > 1 := by rw [getStuff_rets_length]; exact hM
    rw [getStuff_retString, if_pos hlen, if_pos (paren_append_ne_empty _)]
    apply String.ext
    simp [String.data_append, List.append_assoc]
  · intro t ht
    have htne : t ≠ "" := h t (by rw [ht]; simp)
    have hA : (if (([t] : List String).length > 1)
          then "(" ++ String.intercalate ", " [t] ++ ")"
          else String.intercalate ", " [t]) = t := by
      simp [intercalate_single]
    rw [getStuff_retString, ht, hA, if_pos htne]
  · rw [mockMethodLines_eq]
    unfold mockMethodDelta
    rfl

/-- Witness for C4 at the concrete method `Get(_param0 int) (string, error)`
(2 inputs would also do; this has N = 1, M = 2). -/
theorem c4_arity_roundtrip_w :
    (getStuff ⟨"Get", [⟨"", "int"⟩], none, [⟨"", "string"⟩, ⟨"", "error"⟩]⟩).args.length
      = ([⟨"", "int"⟩] : List Param).length + (if (none : Option Param).isSome then 1 else 0) ∧
    (getStuff ⟨"Get", [⟨"", "int"⟩], none, [⟨"", "string"⟩, ⟨"", "error"⟩]⟩).rets.length
      = ([⟨"", "string"⟩, ⟨"", "error"⟩] : List Param).length ∧
    ((getStuff ⟨"Get", [⟨"", "int"⟩], none, [⟨"", "string"⟩, ⟨"", "error"⟩]⟩).retString = ""
      ↔ ([⟨"", "string"⟩, ⟨"", "error"⟩] : List Param).length = 0) ∧
    (([⟨"", "string"⟩, ⟨"", "error"⟩] : List Param).length > 1 →
      (getStuff ⟨"Get", [⟨"", "int"⟩], none, [⟨"", "string"⟩, ⟨"", "error"⟩]⟩).retString
        = " (" ++ (String.intercalate ", "
            (getStuff ⟨"Get", [⟨"", "int"⟩], none, [⟨"", "string"⟩, ⟨"", "error"⟩]⟩).rets ++ ")")) ∧
    (∀ t, (getStuff ⟨"Get", [⟨"", "int"⟩], none, [⟨"", "string"⟩, ⟨"", "error"⟩]⟩).rets = [t] →
      (getStuff ⟨"Get", [⟨"", "int"⟩], none, [⟨"", "string"⟩, ⟨"", "error"⟩]⟩).retString = " " ++ t) ∧
    (mockMethodLines "MockG" ⟨"Get", [⟨"", "int"⟩], none, [⟨"", "string"⟩, ⟨"", "error"⟩]⟩).get? 0
      = some (mockMethodSigLine "MockG" ⟨"Get", [⟨"", "int"⟩], none, [⟨"", "string"⟩, ⟨"", "error"⟩]⟩) ∧
    (getStuff ⟨"Get", [⟨"", "int"⟩], none, [⟨"", "string"⟩, ⟨"", "error"⟩]⟩).argString
      = String.intercalate ", "
          (getStuff ⟨"Get", [⟨"", "int"⟩], none, [⟨"", "string"⟩, ⟨"", "error"⟩]⟩).args :=
  c4_arity_roundtrip "MockG" ⟨"Get", [⟨"", "int"⟩], none, [⟨"", "string"⟩, ⟨"", "error"⟩]⟩
    (by decide)

/-- C5: for every method with at least one declared output, the emitted stub
declares one zero-valued variable per output slot (`var ret<i> <type>` — a
Go `var` declaration carries the type's zero value), narrows each
recorder-returned dynamically-typed value to its declared type under a
`result[i] != nil` guard (so the zero value survives a nil placeholder), and
returns `ret0, ret1, …` in declared order. -/
theorem c5_output_narrowing (mockType : String) (m : Method) (h : m.out ≠ []) :
    (getStuff m).rets = m.out.map (fun p => p.typeStr) ∧
    (∀ i t, (getStuff m).rets.get? i = some t →
      ("\t" ++ ("var ret" ++ natToDec i ++ " " ++ t)) ∈ mockMethodLines mockType m ∧
      (tabs (i + 2) ++ ("if result[" ++ natToDec i ++ "] != nil \x7b")) ∈ mockMethodLines mockType m ∧
      (tabs (i + 3)
          ++ ("ret" ++ natToDec i ++ "  = result[" ++ natToDec i ++ "].(" ++ t ++ ")"))
        ∈ mockMethodLines mockType m) ∧
    ("\t" ++ "if len(result) != 0 \x7b") ∈ mockMethodLines mockType m ∧
    (tabs (m.out.length + 1)
        ++ ("return " ++ String.intercalate ", "
            ((List.range m.out.length).map (fun j => "ret" ++ natToDec j))))
      ∈ mockMethodLines mockType m := by
  have hM : m.out.length > 0 := by
    cases hout : m.out with
    | nil => exact absurd hout h
    | cons p l => simp [hout]
  rw [mockMethodLines_eq]
  unfold mockMethodDelta
  rw [if_pos hM]
  refine ⟨getStuff_rets m, ?_, ?_, ?_⟩
  · intro i t hit
    have hmem := mem_enum_of_get? hit
    have henum := enum_get?_of_get? hit
    refine ⟨?_, ?_, ?_⟩
    · exact List.mem_append_right _ (List.mem_append_left _ (List.mem_append_left _
        (List.mem_append_left _ (List.mem_map.mpr ⟨(i, t), hmem, rfl⟩))))
    · obtain ⟨h1, _⟩ := narrowLines_mem (getStuff m).rets.enum ((("" : String) ++ "\t") ++ "\t")
        i (i, t) henum
      have hv : (((("" : String) ++ "\t") ++ "\t") ++ tabs i) = tabs (i + 2) := by
        show (tabs 1 ++ tabs 1) ++ tabs i = tabs (i + 2)
        rw [tabs_add, tabs_add]
        exact congrArg tabs (by omega)
      rw [hv] at h1
      exact List.mem_append_right _ (List.mem_append_left _
        (List.mem_append_right _ h1))
    · obtain ⟨_, h2⟩ := narrowLines_mem (getStuff m).rets.enum ((("" : String) ++ "\t") ++ "\t")
        i (i, t) henum
      have hv : ((((("" : String) ++ "\t") ++ "\t") ++ tabs i) ++ "\t") = tabs (i + 3) := by
        show ((tabs 1 ++ tabs 1) ++ tabs i) ++ tabs 1 = tabs (i + 3)
        rw [tabs_add, tabs_add, tabs_add]
        exact congrArg tabs (by omega)
      rw [hv] at h2
      exact List.mem_append_right _ (List.mem_append_left _
        (List.mem_append_right _ h2))
  · exact List.mem_append_right _ (List.mem_append_left _ (List.mem_append_left _
      (List.mem_append_right _ (by simp))))
  · exact List.mem_append_right _ (List.mem_append_right _ (by simp))

/-- Witness for C5 at the concrete method `Get(x int) (string, error)`. -/
theorem c5_output_narrowing_w :
    (getStuff ⟨"Get", [⟨"x", "int"⟩], none, [⟨"", "string"⟩, ⟨"", "error"⟩]⟩).rets
      = ([⟨"", "string"⟩, ⟨"", "error"⟩] : List Param).map (fun p => p.typeStr) ∧
    (∀ i t, (getStuff ⟨"Get", [⟨"x", "int"⟩], none, [⟨"", "string"⟩, ⟨"", "error"⟩]⟩).rets.get? i = some t →
      ("\t" ++ ("var ret" ++ natToDec i ++ " " ++ t))
        ∈ mockMethodLines "MockG" ⟨"Get", [⟨"x", "int"⟩], none, [⟨"", "string"⟩, ⟨"", "error"⟩]⟩ ∧
      (tabs (i + 2) ++ ("if result[" ++ natToDec i ++ "] != nil \x7b"))
        ∈ mockMethodLines "MockG" ⟨"Get", [⟨"x", "int"⟩], none, [⟨"", "string"⟩, ⟨"", "error"⟩]⟩ ∧
      (tabs (i + 3)
          ++ ("ret" ++ natToDec i ++ "  = result[" ++ natToDec i ++ "].(" ++ t ++ ")"))
        ∈ mockMethodLines "MockG" ⟨"Get", [⟨"x", "int"⟩], none, [⟨"", "string"⟩, ⟨"", "error"⟩]⟩) ∧
    ("\t" ++ "if len(result) != 0 \x7b")
      ∈ mockMethodLines "MockG" ⟨"Get", [⟨"x", "int"⟩], none, [⟨"", "string"⟩, ⟨"", "error"⟩]⟩ ∧
    (tabs (([⟨"", "string"⟩, ⟨"", "error"⟩] : List Param).length + 1)
        ++ ("return " ++ String.intercalate ", "
            ((List.range ([⟨"", "string"⟩, ⟨"", "error"⟩] : List Param).length).map
              (fun j => "ret" ++ natToDec j))))
      ∈ mockMethodLines "MockG" ⟨"Get", [⟨"x", "int"⟩], none, [⟨"", "string"⟩, ⟨"", "error"⟩]⟩ :=
  c5_output_narrowing "MockG" ⟨"Get", [⟨"x", "int"⟩], none, [⟨"", "string"⟩, ⟨"", "error"⟩]⟩
    (by decide)

/-! ### Closed forms for the verifier, interface and whole-file emission -/

lemma calc_foldl_eq :
    ∀ (l : List (Nat × String)) (g : GenSt),
      l.foldl
        (fun g ia =>
          let paramType := goReplaceAll ((ia.2.splitOn " ").getD 1 "") "..." "[]"
          let g := gp ("_param" ++ natToDec ia.1 ++ " = make([]" ++ paramType ++ ", len(params["
              ++ natToDec ia.1 ++ "]))") g
          let g := gp ("for u, param := range params[" ++ natToDec ia.1 ++ "] \x7b") g
          let g := gp ("_param" ++ natToDec ia.1 ++ "[u]=param.(" ++ paramType ++ ")") g
          gp "\x7d" g) g
        = ⟨g.buf ++ calcEntryLines g.indent l, g.indent⟩
  | [], g => by simp [calcEntryLines]
  | ia :: l, g => by
    rw [List.foldl_cons]
    show l.foldl _ (gp "\x7d" (gp _ (gp _ (gp _ g)))) = _
    rw [calc_foldl_eq l _]
    simp [gp, calcEntryLines, List.append_assoc]

lemma calcParams_eq (argString : String) (args : List String) (methodName : String) (g : GenSt) :
    calcParams argString args methodName g
      = ⟨g.buf ++ calcParamsDelta g.indent argString args methodName, g.indent⟩ := by
  unfold calcParams calcParamsDelta
  by_cases ha : argString ≠ ""
  · simp only [if_pos ha]
    rw [calc_foldl_eq]
    simp [gp, List.append_assoc]
  · simp [if_neg ha]

lemma generateVerifierMethod_eq (interfaceName : String) (m : Method) (g : GenSt) :
    generateVerifierMethod interfaceName m g
      = ⟨g.buf ++ verifierDelta g.indent interfaceName m, g.indent⟩ := by
  unfold generateVerifierMethod verifierDelta
  by_cases ha : (getStuff m).args.length > 0
  · simp only [if_pos ha]
    rw [calcParams_eq]
    simp only [gp, calcParamsDelta, List.append_assoc, List.cons_append, List.nil_append,
      List.singleton_append]
  · simp only [if_neg ha, gp, List.append_assoc, List.cons_append, List.nil_append,
      List.singleton_append]

lemma mockMethods_foldl_eq (mockTypeName : String) :
    ∀ (l : List Method) (g : GenSt),
      l.foldl (fun g m => gp "" (generateMockMethod mockTypeName m g)) g
        = ⟨g.buf ++ mockMethodsLines mockTypeName g.indent l,
           g.indent ++ tabs (methodsOutSum l)⟩
  | [], g => by simp [mockMethodsLines, methodsOutSum, tabs_zero]
  | m :: l, g => by
    rw [List.foldl_cons, generateMockMethod_eq]
    show l.foldl _ (gp "" _) = _
    rw [mockMethods_foldl_eq mockTypeName l _]
    simp only [gp, mockMethodsLines, methodsOutSum, GenSt.mk.injEq]
    refine ⟨by simp [List.append_assoc], ?_⟩
    rw [String.append_assoc, tabs_add]

lemma verifierMethods_foldl_eq (interfaceName : String) :
    ∀ (l : List Method) (g : GenSt),
      l.foldl (fun g m => gp "" (generateVerifierMethod interfaceName m g)) g
        = ⟨g.buf ++ verifierMethodsLines interfaceName g.indent l, g.indent⟩
  | [], g => by simp [verifierMethodsLines]
  | m :: l, g => by
    rw [List.foldl_cons, generateVerifierMethod_eq]
    show l.foldl _ (gp "" _) = _
    rw [verifierMethods_foldl_eq interfaceName l _]
    simp [gp, verifierMethodsLines, List.append_assoc]

lemma generateMockInterface_eq (iface : Interface) (g : GenSt) :
    generateMockInterface iface g
      = ⟨g.buf ++ interfaceDelta g.indent iface,
         g.indent ++ tabs (methodsOutSum iface.methods)⟩ := by
  unfold generateMockInterface interfaceDelta
  simp only []
  rw [mockMethods_foldl_eq, verifierMethods_foldl_eq]
  simp only [gp, gin, gout_tab, List.append_assoc, List.cons_append, List.nil_append,
    List.singleton_append, GenSt.mk.injEq]

lemma interfaces_foldl_eq :
    ∀ (l : List Interface) (g : GenSt),
      l.foldl (fun g i => generateMockInterface i g) g
        = ⟨g.buf ++ interfacesDelta g.indent l, g.indent ++ tabs (ifacesOutSum l)⟩
  | [], g => by simp [interfacesDelta, ifacesOutSum, tabs_zero]
  | i :: l, g => by
    rw [List.foldl_cons, generateMockInterface_eq]
    rw [interfaces_foldl_eq l _]
    simp only [interfacesDelta, ifacesOutSum, GenSt.mk.injEq]
    refine ⟨by simp [List.append_assoc], ?_⟩
    rw [String.append_assoc, tabs_add]

lemma imports_foldl_eq (selfPackage : String) :
    ∀ (entries : List (String × String)) (g : GenSt),
      entries.foldl
        (fun g e => if e.1 = selfPackage then g else gp (e.2 ++ " " ++ goQuote e.1) g) g
        = ⟨g.buf ++ entries.filterMap
            (fun e => if e.1 = selfPackage then none
              else some (g.indent ++ (e.2 ++ " " ++ goQuote e.1))), g.indent⟩
  | [], g => by simp
  | e :: entries, g => by
    rw [List.foldl_cons]
    by_cases he : e.1 = selfPackage
    · rw [if_pos he, imports_foldl_eq selfPackage entries g]
      simp [List.filterMap_cons, he]
    · rw [if_neg he, imports_foldl_eq selfPackage entries _]
      simp [gp, List.filterMap_cons, he, List.append_assoc]

lemma dots_foldl_eq :
    ∀ (l : List String) (g : GenSt),
      l.foldl (fun g p => gp (". " ++ goQuote p) g) g
        = ⟨g.buf ++ l.map (fun p => g.indent ++ (". " ++ goQuote p)), g.indent⟩
  | [], g => by simp
  | p :: l, g => by
    rw [List.foldl_cons, dots_foldl_eq l _]
    simp [gp]

lemma interfacesLines_eq (pkg : Pkg) :
    interfacesLines pkg = interfacesDelta "" pkg.interfaces := by
  show (pkg.interfaces.foldl (fun g i => generateMockInterface i g) ⟨[], ""⟩).buf = _
  rw [interfaces_foldl_eq]
  exact List.nil_append _

/-- Structure of the whole emitted file: provenance header, `package` line,
the import block — `"reflect"` first, then the aliased imports in
map-iteration order with the self package skipped, then the dot imports —
and the per-interface sections. -/
lemma generateLines_eq (pkg : Pkg) (source pkgName selfPackage : String)
    (renderEntries : List (String × String)) :
    generateLines pkg source pkgName selfPackage renderEntries =
      ["// Automatically generated by MockGen. DO NOT EDIT!",
       "// Source: " ++ source, "", "package " ++ pkgName, "", "import (", "\t\"reflect\""]
      ++ aliasedImportLines renderEntries selfPackage
      ++ pkg.dotImports.map (fun p => "\t" ++ (". " ++ goQuote p))
      ++ [")"]
      ++ interfacesLines pkg := by
  show (generateG pkg source pkgName selfPackage renderEntries).buf = _
  unfold generateG
  simp only []
  rw [imports_foldl_eq, dots_foldl_eq, interfacesLines_eq]
  rw [interfaces_foldl_eq]
  show (⟨_, _⟩ : GenSt).buf = _
  simp only [gp, gin, gout_tab, gout_tab1, aliasedImportLines, List.append_assoc,
    List.cons_append, List.nil_append, List.singleton_append, String.empty_append]
  rfl

/-! ### Claims C6, C7, C8 -/

/-- Counterexample for C6: in a concrete run the first import spec of the
emitted block is the fixed `"reflect"` import (index 6 of the emitted
lines), not the recorder-library import (`pegomock
"github.com/petergtz/pegomock"`, which here appears at index 9, in
map-iteration position); moreover two runs over permuted iteration orders of
the same resolved alias map emit different blocks, so the aliased imports
are not in a deterministic order. -/
theorem c6_import_block_cex :
    (resolveAliases ["a/aa", "b/bb", importPath]).1
      = [("a/aa", "aa"), ("b/bb", "bb"), (importPath, "pegomock")] ∧
    (generateLines ⟨["d/dot"], []⟩ "src.go" "mocks" ""
        [("a/aa", "aa"), ("b/bb", "bb"), (importPath, "pegomock")]).get? 6
      = some "\t\"reflect\"" ∧
    (generateLines ⟨["d/dot"], []⟩ "src.go" "mocks" ""
        [("a/aa", "aa"), ("b/bb", "bb"), (importPath, "pegomock")]).get? 9
      = some "\tpegomock \"github.com/petergtz/pegomock\"" ∧
    ("\t\"reflect\"" : String) ≠ "\tpegomock \"github.com/petergtz/pegomock\"" ∧
    List.Perm [("b/bb", "bb"), ("a/aa", "aa"), (importPath, "pegomock")]
      [("a/aa", "aa"), ("b/bb", "bb"), (importPath, "pegomock")] ∧
    generateLines ⟨["d/dot"], []⟩ "src.go" "mocks" ""
        [("b/bb", "bb"), ("a/aa", "aa"), (importPath, "pegomock")]
      ≠ generateLines ⟨["d/dot"], []⟩ "src.go" "mocks" ""
        [("a/aa", "aa"), ("b/bb", "bb"), (importPath, "pegomock")] := by
  decide

/-- C6 amended: the emitted import block lists the fixed `"reflect"` import
first, then the aliased imports — the recorder-library import among them —
in the order the unordered `packageMap` happens to be iterated (not a
deterministic order), with the self package skipped, and the verbatim dot
imports last. -/
theorem c6_import_block_amended (pkg : Pkg) (source pkgName selfPackage : String)
    (renderEntries : List (String × String)) :
    generateLines pkg source pkgName selfPackage renderEntries =
      ["// Automatically generated by MockGen. DO NOT EDIT!",
       "// Source: " ++ source, "", "package " ++ pkgName, "", "import (", "\t\"reflect\""]
      ++ aliasedImportLines renderEntries selfPackage
      ++ pkg.dotImports.map (fun p => "\t. " ++ goQuote p)
      ++ [")"]
      ++ interfacesLines pkg := by
  rw [generateLines_eq]
  have hdot : ∀ p : String, ("\t" : String) ++ (". " ++ goQuote p) = "\t. " ++ goQuote p := by
    intro p
    apply String.ext
    simp [String.data_append]
  simp only [hdot]

/-- Counterexample for C7: an identical model and an identical
alias-assignment order (both runs iterate the very same resolved
`packageMap`) do not force byte-identical output — the import-block
rendering iterates the unordered map a second time, and two different
iteration orders give different emitted lines. -/
theorem c7_determinism_cex :
    List.Perm [("c/cc", "cc"), ("d/dd", "dd"), (importPath, "pegomock")]
      ((resolveAliases ["c/cc", "d/dd", importPath]).1) ∧
    List.Perm [(importPath, "pegomock"), ("d/dd", "dd"), ("c/cc", "cc")]
      ((resolveAliases ["c/cc", "d/dd", importPath]).1) ∧
    generateLines ⟨[], []⟩ "f.go" "out" ""
        [("c/cc", "cc"), ("d/dd", "dd"), (importPath, "pegomock")]
      ≠ generateLines ⟨[], []⟩ "f.go" "out" ""
        [(importPath, "pegomock"), ("d/dd", "dd"), ("c/cc", "cc")] := by
  decide

/-- C7 amended: with the model and the alias-assignment order fixed, the
emitted output is determined up to a permutation — two runs whose
import-block iteration orders are permutations of each other produce
permutations of the same line list (and byte-identical output when that
order is also identical, the whole emission being a pure function). -/
theorem c7_output_perm (pkg : Pkg) (source pkgName selfPackage : String)
    (re₁ re₂ : List (String × String)) (hperm : re₁.Perm re₂) :
    (generateLines pkg source pkgName selfPackage re₁).Perm
      (generateLines pkg source pkgName selfPackage re₂) := by
  rw [generateLines_eq, generateLines_eq]
  have hA : (aliasedImportLines re₁ selfPackage).Perm (aliasedImportLines re₂ selfPackage) :=
    hperm.filterMap _
  exact (((hA.append_left _).append_right _).append_right _).append_right _

/-- Witness for C7 (amended) at two concrete iteration orders. -/
theorem c7_output_perm_w :
    (generateLines ⟨[], []⟩ "s" "m" "" [("a/aa", "aa"), ("b/bb", "bb")]).Perm
      (generateLines ⟨[], []⟩ "s" "m" "" [("b/bb", "bb"), ("a/aa", "aa")]) :=
  c7_output_perm ⟨[], []⟩ "s" "m" "" _ _ (by decide)

lemma aliasedImportLines_eq_filter (re : List (String × String)) (selfPackage : String) :
    aliasedImportLines re selfPackage
      = (re.filter (fun e => e.1 ≠ selfPackage)).map
          (fun e => "\t" ++ (e.2 ++ " " ++ goQuote e.1)) := by
  induction re with
  | nil => rfl
  | cons e l ih =>
    by_cases he : e.1 = selfPackage
    · simp [aliasedImportLines, List.filterMap_cons, List.filter_cons, he] at ih ⊢
      exact ih
    · simp [aliasedImportLines, List.filterMap_cons, List.filter_cons, he] at ih ⊢
      exact ih

/-- C8: a self-namespace path occurring among the resolved import paths is
still assigned an alias by the resolver, but the import-block rendering
skips exactly the entries whose path is the self package, so no import line
for it is ever emitted. -/
theorem c8_self_package (paths : List String) (selfPackage : String)
    (re : List (String × String)) (hself : selfPackage ∈ paths)
    (_hre : re.Perm (resolveAliases paths).1) :
    (∃ a, (selfPackage, a) ∈ (resolveAliases paths).1) ∧
    aliasedImportLines re selfPackage
      = (re.filter (fun e => e.1 ≠ selfPackage)).map
          (fun e => "\t" ++ (e.2 ++ " " ++ goQuote e.1)) ∧
    selfPackage ∉ (re.filter (fun e => e.1 ≠ selfPackage)).map Prod.fst := by
  refine ⟨?_, aliasedImportLines_eq_filter re selfPackage, ?_⟩
  · exact resolveAliases_fold_mem paths [] [] selfPackage (Or.inr hself)
  · intro hmem
    obtain ⟨e, he, hfst⟩ := List.mem_map.mp hmem
    have h2 := (List.mem_filter.mp he).2
    simp at h2
    exact h2 hfst

/-- Witness for C8 at the concrete path set `["p/x", "self/pkg"]` with self
package `"self/pkg"`. -/
theorem c8_self_package_w :
    (∃ a, ("self/pkg", a) ∈ (resolveAliases ["p/x", "self/pkg"]).1) ∧
    aliasedImportLines [("p/x", "x"), ("self/pkg", "pkg")] "self/pkg"
      = (([("p/x", "x"), ("self/pkg", "pkg")] : List (String × String)).filter
          (fun e => e.1 ≠ "self/pkg")).map (fun e => "\t" ++ (e.2 ++ " " ++ goQuote e.1)) ∧
    "self/pkg" ∉ ((([("p/x", "x"), ("self/pkg", "pkg")] : List (String × String)).filter
        (fun e => e.1 ≠ "self/pkg")).map Prod.fst) :=
  c8_self_package ["p/x", "self/pkg"] "self/pkg" [("p/x", "x"), ("self/pkg", "pkg")]
    (by decide) (by decide)

/-! ### Claim C9 -/

/-- Counterexample for C9: in single-file mode the code does not take the
input file's base name — it keeps the path as given and only trims a
trailing ".go", so for input `sub/foo.go` the destination keeps the `sub/`
directory component, while the claim's base-name derivation would drop
it. -/
theorem c9_output_path_cex :
    OutputFilePath ["sub/foo.go"] "out" "" = "out/mock_sub/foo_test.go" ∧
    outputFilePathClaimed ["sub/foo.go"] "out" "" = "out/mock_foo_test.go" ∧
    OutputFilePath ["sub/foo.go"] "out" ""
      ≠ outputFilePathClaimed ["sub/foo.go"] "out" "" := by
  decide

/-- C9 amended: the destination is the explicit override whenever one is
supplied (non-empty); otherwise, in single-file mode it is derived from the
input path argument as given — directory components retained — with a
trailing ".go" trimmed and the fixed prefix "mock_" and suffix "_test.go"
applied, and in namespace+names mode from the lower-cased last argument with
the same prefix and suffix, in both cases placed under the configured output
directory. -/
theorem c9_output_path_amended (args : List String)
    (outputDirPath outputFilePathOverride : String) :
    OutputFilePath args outputDirPath outputFilePathOverride
      = outputFilePathAmended args outputDirPath outputFilePathOverride ∧
    (outputFilePathOverride ≠ "" →
      OutputFilePath args outputDirPath outputFilePathOverride = outputFilePathOverride) ∧
    (outputFilePathOverride = "" → args.length = 1 →
      OutputFilePath args outputDirPath outputFilePathOverride
        = filepathJoin outputDirPath ("mock_" ++ trimSuffix (args.headD "") ".go" ++ "_test.go")) ∧
    (outputFilePathOverride = "" → args.length ≠ 1 →
      OutputFilePath args outputDirPath outputFilePathOverride
        = filepathJoin outputDirPath ("mock_" ++ goToLower (args.getLastD "") ++ "_test.go")) := by
  refine ⟨?_, ?_, ?_, ?_⟩
  · unfold OutputFilePath outputFilePathAmended SourceMode
    by_cases h : args.length = 1 <;> simp [h]
  · intro hov
    unfold OutputFilePath
    rw [if_pos hov]
  · intro hov hlen
    unfold OutputFilePath SourceMode
    rw [if_neg (by simp [hov]), if_pos (by simp [hlen])]
  · intro hov hlen
    unfold OutputFilePath SourceMode
    rw [if_neg (by simp [hov]), if_neg (by simp [hlen])]

/-- Witness for C9 (amended) at the concrete input `["sub/foo.go"]` with
output directory `out` and no override. -/
theorem c9_output_path_amended_w :
    OutputFilePath ["sub/foo.go"] "out" ""
      = filepathJoin "out" ("mock_" ++ trimSuffix (["sub/foo.go"].headD "") ".go" ++ "_test.go") :=
  (c9_output_path_amended ["sub/foo.go"] "out" "").2.2.1 rfl (by decide)

end Mockgen
